import Mathlib

/-!
Verification development for the `infra-boomer` repository
(`scripts/terraform_comment.py` and `scripts/terraform_lint_comment.py`).

The two Python scripts are shallowly embedded below.  Pure text
processing (the lint-output parser, HTML rendering, plan extraction) is
translated into executable Lean functions over `String` / `List Char`;
the stateful REST interaction (comment upsert) is modelled as explicit
state passing over the pull request's comment list; fallible paths
(event-payload reading) return `Except`.

Modelling conventions, stated once:
* Python `str.splitlines` is modelled over the Unicode line-break set
  used by CPython (`\n`, `\r`, `\r\n`, `\x0b`, `\x0c`, `\x1c`-`\x1e`,
  `\x85`, U+2028, U+2029).
* Python `str.strip()` / the regex class `\s` are modelled by
  `isPySpace`, covering the ASCII whitespace characters plus the
  common Unicode whitespace CPython treats as space.
* The regex classes `\d` and `[A-Za-z]` are modelled as ASCII digits
  and ASCII letters (`Char.isDigit`, `Char.isAlpha`); `str.lower` and
  `str.title` are modelled on ASCII letters, which is exact for every
  string the scripts apply them to (severity levels matched by
  `[A-Za-z]+`).
-/

/-- Whitespace per CPython `str.isspace` / regex `\s` (Unicode mode),
restricted to the characters modelled here. -/
def isPySpace (c : Char) : Bool :=
  c = ' ' || c = '\t' || c = '\n' || c = '\r' ||
  c = Char.ofNat 0x0b || c = Char.ofNat 0x0c ||
  c = Char.ofNat 0x1c || c = Char.ofNat 0x1d || c = Char.ofNat 0x1e ||
  c = Char.ofNat 0x1f || c = Char.ofNat 0x85 || c = Char.ofNat 0xa0 ||
  c = Char.ofNat 0x2028 || c = Char.ofNat 0x2029 || c = Char.ofNat 0x3000

/-- Line-break characters per CPython `str.splitlines`. -/
def isLineBreak (c : Char) : Bool :=
  c = '\n' || c = '\r' ||
  c = Char.ofNat 0x0b || c = Char.ofNat 0x0c ||
  c = Char.ofNat 0x1c || c = Char.ofNat 0x1d || c = Char.ofNat 0x1e ||
  c = Char.ofNat 0x85 || c = Char.ofNat 0x2028 || c = Char.ofNat 0x2029

/-- CPython `str.splitlines` (accumulator form): every line break ends
a line and a nonempty trailing segment is kept; the Boolean flag
records a just-seen `\r`, so that the `\n` of a `\r\n` pair is skipped
rather than ending a second line. -/
def splitLinesAux : List Char → Bool → List Char → List (List Char)
  | [], _, acc => if acc.isEmpty then [] else [acc.reverse]
  | c :: rest, afterCR, acc =>
    if afterCR && (c = '\n') then splitLinesAux rest false acc
    else if isLineBreak c then
      acc.reverse :: splitLinesAux rest (c = '\r') []
    else splitLinesAux rest false (c :: acc)

def pySplitLines (s : String) : List (List Char) :=
  splitLinesAux s.data false []

/-- CPython `str.strip()` on a character list. -/
def pyStripList (l : List Char) : List Char :=
  ((l.dropWhile isPySpace).reverse.dropWhile isPySpace).reverse

/-- Removal of trailing whitespace only (`pyStripList` is this composed
with a leading `dropWhile`). -/
def rstripL (l : List Char) : List Char :=
  (l.reverse.dropWhile isPySpace).reverse

def pyStrip (s : String) : String := String.mk (pyStripList s.data)

/-- ASCII `str.lower`. -/
def toLowerStr (s : String) : String := String.mk (s.data.map Char.toLower)

/-- Substring test, CPython `pat in l` on character lists. -/
def hasSubList (l p : List Char) : Bool :=
  p.isPrefixOf l ||
    (match l with
     | [] => false
     | _ :: t => hasSubList t p)

/-- Substring test on strings (Python `in`). -/
def containsSub (s pat : String) : Bool := hasSubList s.data pat.data

/-- Number of positions of `l` at which `p` occurs (occurrences may
overlap; used to count HTML tags, which cannot overlap themselves). -/
def countSubList (l p : List Char) : Nat :=
  (if p.isPrefixOf l then 1 else 0) +
    (match l with
     | [] => 0
     | _ :: t => countSubList t p)

def countSub (s pat : String) : Nat := countSubList s.data pat.data

/-- Decimal digits of `n`, most significant first (CPython `str(int)`
for non-negative values); the fuel argument only bounds the recursion
and `n + 1` fuel always suffices. -/
def natDigits (fuel n : Nat) (acc : List Char) : List Char :=
  match fuel with
  | 0 => acc
  | fuel + 1 =>
    let d := Char.ofNat (48 + n % 10)
    if n / 10 = 0 then d :: acc else natDigits fuel (n / 10) (d :: acc)

def natStr (n : Nat) : String := String.mk (natDigits (n + 1) n [])

/-- Stable ascending insertion into a sorted list: `a` is placed before
the first element it compares `le` to, hence after every earlier-listed
equal element. -/
def insertSorted (le : α → α → Bool) (a : α) : List α → List α
  | [] => [a]
  | b :: l => if le a b then a :: b :: l else b :: insertSorted le a l

/-- Stable ascending sort.  CPython `list.sort(key=...)` is a stable
sort by a total preorder, and the stable sorted permutation of a list
is unique, so insertion sort is extensionally the Python sort. -/
def stableSort (le : α → α → Bool) : List α → List α
  | [] => []
  | a :: l => insertSorted le a (stableSort le l)

/-- CPython `html.escape` (with quoting) on one character. -/
def escapeChar (c : Char) : List Char :=
  if c = '&' then "&amp;".data
  else if c = '<' then "&lt;".data
  else if c = '>' then "&gt;".data
  else if c = Char.ofNat 34 then "&quot;".data
  else if c = Char.ofNat 39 then "&#x27;".data
  else [c]

def escapeList : List Char → List Char
  | [] => []
  | c :: rest => escapeChar c ++ escapeList rest

/-- CPython `html.escape(s)` (sequential replacement of `&`, `<`, `>`,
quotes is equivalent to this character-wise expansion). -/
def escape (s : String) : String := String.mk (escapeList s.data)

/-! ## The lint-output line parser (`terraform_lint_comment.py`, `LINE_RE`)

`LINE_RE` is a verbose-mode anchored pattern
`^(file)[^:\n]+ : \d+ : \d+ : \s* [A-Za-z]+ \s*-\s* (msg).*?
(optional: \s* \( [^)]+ \) ) \s*$`.
Each quantified piece is separated from its successor by characters the
piece itself cannot match, so backtracking resolves deterministically;
the only genuine search is the lazy `msg` group, resolved by trying the
shortest message first, at each length preferring the parenthesised
rule group over bare end-of-line.  The functions below implement
exactly that search. -/

structure LintIssue where
  line : Nat
  col : Nat
  level : String
  rule : String
  msg : String
deriving Repr, DecidableEq

/-- The optional group `\s* \( (rule)[^)]+ \) \s*$` matched at the
current position. -/
def ruleMatch (v : List Char) : Option (List Char) :=
  match v.dropWhile isPySpace with
  | [] => none
  | c :: w =>
    if c = '(' then
      let run := w.takeWhile (fun c => c ≠ ')')
      match w.dropWhile (fun c => c ≠ ')') with
      | [] => none
      | c2 :: w2 =>
        if c2 = ')' then
          if run ≠ [] ∧ w2.all isPySpace then some run else none
        else none
    else none

/-- Resolve the lazy `(?P<msg>.*?)` group followed by the optional rule
group and `\s*$`: shortest message first; at each split the rule group
is preferred over the bare `\s*$` alternative (`Option.elim`'s second
branch).  Returns the raw message and rule characters (`[]` for an
absent rule). -/
def msgRule : List Char → Option (List Char × List Char)
  | [] =>
    (ruleMatch []).elim
      (if ([] : List Char).all isPySpace then some ([], []) else none)
      (fun r => some ([], r))
  | c :: rest =>
    (ruleMatch (c :: rest)).elim
      (if (c :: rest).all isPySpace then some ([], [])
       else (msgRule rest).map (fun p => (c :: p.1, p.2)))
      (fun r => some ([], r))

/-- Digits to a number, `int()` on a nonempty ASCII digit string. -/
def digitsToNat (l : List Char) : Nat :=
  l.foldl (fun n c => n * 10 + (c.toNat - 48)) 0

/-- `LINE_RE.match` on one line followed by the per-match processing of
`parse_tflint_output` (strip the file, lowercase the level, strip and
default the rule and message). -/
def matchLine (s : List Char) : Option (String × LintIssue) :=
  let file := s.takeWhile (fun c => ¬ (c = ':' ∨ c = '\n'))
  match s.dropWhile (fun c => ¬ (c = ':' ∨ c = '\n')) with
  | [] => none
  | c1 :: r1 =>
    if c1 ≠ ':' then none else
    if file.isEmpty then none else
    let ds1 := r1.takeWhile Char.isDigit
    match r1.dropWhile Char.isDigit with
    | [] => none
    | c2 :: r2 =>
      if c2 ≠ ':' then none else
      if ds1.isEmpty then none else
      let ds2 := r2.takeWhile Char.isDigit
      match r2.dropWhile Char.isDigit with
      | [] => none
      | c3 :: r3 =>
        if c3 ≠ ':' then none else
        if ds2.isEmpty then none else
        let r4 := r3.dropWhile isPySpace
        let lvl := r4.takeWhile Char.isAlpha
        if lvl.isEmpty then none else
        match (r4.dropWhile Char.isAlpha).dropWhile isPySpace with
        | [] => none
        | c4 :: r6 =>
          if c4 ≠ '-' then none else
          match msgRule (r6.dropWhile isPySpace) with
          | some (m, r) =>
            some (String.mk (pyStripList file),
              { line := digitsToNat ds1
                col := digitsToNat ds2
                level := String.mk (lvl.map Char.toLower)
                rule := String.mk (pyStripList r)
                msg := String.mk (pyStripList m) })
          | none => none

/-- The summary-line filter of `parse_tflint_output`. -/
def isSummaryLine (l : List Char) : Bool :=
  hasSubList (l.map Char.toLower) "issue(s) found".data ||
  hasSubList (l.map Char.toLower) "no issues".data

/-- `files.setdefault(file, []).append(issue)` over an
insertion-ordered association list (Python dict semantics). -/
def insertIssue (fs : List (String × List LintIssue)) (f : String)
    (i : LintIssue) : List (String × List LintIssue) :=
  match fs with
  | [] => [(f, [i])]
  | (g, gis) :: rest =>
    if g = f then (g, gis ++ [i]) :: rest
    else (g, gis) :: insertIssue rest f i

/-- The line loop of `parse_tflint_output`: skip blank lines, skip
summary lines, drop lines that do not match, collect the rest. -/
def collectIssues (ls : List (List Char)) : List (String × List LintIssue) :=
  ls.foldl
    (fun fs l =>
      if l.all isPySpace then fs
      else if isSummaryLine l then fs
      else
        match matchLine l with
        | some (f, i) => insertIssue fs f i
        | none => fs)
    []

/-- `SEV_WEIGHT.get(level, 0)`. -/
def sevWeight (s : String) : Nat :=
  if s = "error" then 3
  else if s = "warning" then 2
  else if s = "notice" then 1
  else if s = "info" then 1
  else 0

/-- Sort key `(-SEV_WEIGHT, line, col)`; weights lie in `0..3`, so
ascending `3 - w` coincides with ascending `-w`. -/
def issueKey (i : LintIssue) : Nat × Nat × Nat :=
  (3 - sevWeight i.level, i.line, i.col)

def issueLe (a b : LintIssue) : Bool :=
  let x := issueKey a
  let y := issueKey b
  x.1 < y.1 || (x.1 = y.1 &&
    (x.2.1 < y.2.1 || (x.2.1 = y.2.1 && x.2.2 ≤ y.2.2)))

def fileLe (a b : String × List LintIssue) : Bool :=
  decide (toLowerStr a.1 ≤ toLowerStr b.1)

/-- `parse_tflint_output`: collect issues per file in insertion order,
sort each file's issues by `(-weight, line, col)` (stable), then sort
the files case-insensitively by path (stable). -/
def parse_tflint_output (text : String) : List (String × List LintIssue) :=
  let fs := collectIssues (pySplitLines text)
  let fs2 := fs.map (fun p => (p.1, stableSort issueLe p.2))
  stableSort fileLe fs2

/-- Total number of parsed issues across all files. -/
def totalIssues (files : List (String × List LintIssue)) : Nat :=
  (files.map (fun p => p.2.length)).sum

structure SeverityTotals where
  error : Nat
  warning : Nat
  info : Nat
  total : Nat
deriving Repr, DecidableEq

/-- `t[lvl] = t.get(lvl, 0) + 1` over a total counting map (the preset
zero entries of the Python dict coincide with the default 0). -/
def bumpCount (t : String → Nat) (k : String) : String → Nat :=
  fun x => if x = k then t k + 1 else t x

/-- `totals_from_files`: count every level, fold notice into info, and
report error/warning/info plus their sum. -/
def totals_from_files (files : List (String × List LintIssue)) :
    SeverityTotals :=
  let t := files.foldl
    (fun t p => p.2.foldl (fun t i => bumpCount t i.level) t)
    (fun _ => 0)
  let inf := t "info" + t "notice"
  { error := t "error", warning := t "warning", info := inf,
    total := t "error" + t "warning" + inf }

/-! ## HTML rendering (`build_details_html` and friends)

Each Python f-string is embedded as a list of chunks: `lit` chunks are
the literal fragments of the f-string, `var` chunks the interpolated
expressions, in source order; the rendered string is their
concatenation. -/

inductive Chunk where
  | lit (s : String)
  | var (s : String)

def Chunk.str : Chunk → String
  | .lit s => s
  | .var s => s

def chunksData : List Chunk → List Char
  | [] => []
  | c :: cs => c.str.data ++ chunksData cs

def chunksStr (cs : List Chunk) : String := String.mk (chunksData cs)

/-- The environment-derived globals of `terraform_lint_comment.py` that
the pure rendering code reads. -/
structure LintEnv where
  ghSha : String
  ownerForUrl : String
  repoName : String
  repo : String
  runId : String
  eventName : String
  actor : String
  workflow : String
  workingDir : String
  workspace : Option String
  tflintOutput : String

/-- `SEV_EMOJI.get(lvl, "ℹ️")`. -/
def sevEmoji (s : String) : String :=
  if s = "error" then "❌"
  else if s = "warning" then "⚠️"
  else if s = "notice" then "ℹ️"
  else if s = "info" then "ℹ️"
  else "ℹ️"

/-- CPython `str.title` restricted to ASCII cased characters: a letter
is uppercased after a non-letter and lowercased after a letter. -/
def titleAux : Bool → List Char → List Char
  | _, [] => []
  | prev, c :: rest =>
    let isA := c.isAlpha
    (if isA then (if prev then c.toLower else c.toUpper) else c)
      :: titleAux isA rest

def titleStr (s : String) : String := String.mk (titleAux false s.data)

def maxRows : Nat := 500

/-- The `line_cell` of one table row: a commit-pinned link when
`GITHUB_SHA` is non-empty (note the file path is interpolated raw into
the `href`), else the bare line number. -/
def lineCellChunks (env : LintEnv) (fp : String) (i : LintIssue) :
    List Chunk :=
  if env.ghSha = "" then [.var (natStr i.line)]
  else
    [.lit "<a href='https://github.com/", .var env.ownerForUrl, .lit "/",
     .var env.repoName, .lit "/blob/", .var env.ghSha, .lit "/", .var fp,
     .lit "#L", .var (natStr i.line), .lit "'>", .var (natStr i.line),
     .lit "</a>"]

/-- One `<tr>` data row of the details table. -/
def rowChunks (env : LintEnv) (fp : String) (i : LintIssue) : List Chunk :=
  [Chunk.lit "<tr>", .lit "<td align='right'>"] ++ lineCellChunks env fp i ++
  [Chunk.lit "</td>", .lit "<td align='right'>", .var (natStr i.col),
   .lit "</td>", .lit "<td>", .var (sevEmoji i.level), .lit " <strong>",
   .var (escape (titleStr i.level)), .lit "</strong></td>",
   .lit "<td><code>", .var (escape i.rule), .lit "</code></td>",
   .lit "<td>", .var (escape i.msg), .lit "</td>", .lit "</tr>"]

def rowPart (env : LintEnv) (fp : String) (i : LintIssue) : String :=
  chunksStr (rowChunks env fp i)

/-- The per-file `<details><summary>` header part. -/
def fileHeaderChunks (fp : String) (fIssues : List LintIssue) : List Chunk :=
  [.lit "\n<details><summary>📄 <code>", .var (escape fp),
   .lit "</code> — <strong>", .var (natStr fIssues.length),
   .lit "</strong> issue(s)</summary>\n"]

def fileHeaderPart (fp : String) (fIssues : List LintIssue) : String :=
  chunksStr (fileHeaderChunks fp fIssues)

def theadPart : String :=
  "<table><thead><tr><th align='right'>Line</th><th align='right'>Col</th><th align='left'>Level</th><th align='left'>Rule</th><th align='left'>Message</th></tr></thead><tbody>"

def tableClosePart : String := "</tbody></table>\n</details>\n"

def noticeChunks (workflowUrl : String) : List Chunk :=
  [.lit "<p>⏳ Output truncated to ", .var (natStr maxRows),
   .lit " rows for readability. See full details in the Actions tab: ",
   .var workflowUrl, .lit "</p>"]

def noticePart (workflowUrl : String) : String :=
  chunksStr (noticeChunks workflowUrl)

/-- The inner row loop of `build_details_html` for one file: emit rows
while `row_count < MAX_ROWS`, set the truncation flag and break when an
issue is pending with the cap reached.  Returns the emitted row parts,
the updated row count and the truncation flag. -/
def renderRows (env : LintEnv) (fp : String) :
    List LintIssue → Nat → List String × Nat × Bool
  | [], rc => ([], rc, false)
  | i :: rest, rc =>
    if rc ≥ maxRows then ([], rc, true)
    else
      let out := renderRows env fp rest (rc + 1)
      (rowPart env fp i :: out.1, out.2)

/-- The outer file loop of `build_details_html`: emit the per-file
header, the table head, the rows and the table close; stop after the
file in which truncation was detected. -/
def renderFiles (env : LintEnv) :
    List (String × List LintIssue) → Nat → List String × Bool
  | [], _ => ([], false)
  | (fp, fIssues) :: rest, rc =>
    let r := renderRows env fp fIssues rc
    let block := fileHeaderPart fp fIssues :: theadPart :: r.1 ++ [tableClosePart]
    if r.2.2 then (block, true)
    else
      let out := renderFiles env rest r.2.1
      (block ++ out.1, out.2)

/-- `build_details_html` as the list of `parts` the Python function
appends; the returned string is their `"\n"`-join. -/
def build_details_html_parts (env : LintEnv)
    (files : List (String × List LintIssue)) (workflowUrl : String) :
    List String :=
  let pre := ["<details>", "<summary>📖 Details (Click me)</summary>", ""]
  if files.isEmpty then pre ++ ["_No issues to display._", "", "</details>", ""]
  else
    let r := renderFiles env files 0
    pre ++ r.1 ++ (if r.2 then [noticePart workflowUrl] else []) ++
      ["", "</details>", ""]

def build_details_html (env : LintEnv)
    (files : List (String × List LintIssue)) (workflowUrl : String) :
    String :=
  String.intercalate "\n" (build_details_html_parts env files workflowUrl)

/-- `build_summary_md` of the lint script. -/
def build_summary_md (t : SeverityTotals) : String :=
  "### 🧹 TFLint Summary\n" ++
  "- " ++ sevEmoji "error" ++ " **Errors**: `" ++ natStr t.error ++ "`\n" ++
  "- " ++ sevEmoji "warning" ++ " **Warnings**: `" ++ natStr t.warning ++ "`\n" ++
  "- " ++ sevEmoji "info" ++ " **Info**: `" ++ natStr t.info ++ "`\n" ++
  "- 📦 **Total**: `" ++ natStr t.total ++ "`\n\n" ++
  "_Legend: ❌ error · ⚠️ warning · ℹ️ info_\n\n" ++
  "✅ **Lint check succeeded**\n"

/-- `footer_md(repo, run_id)` of the lint script. -/
def lint_footer_md (env : LintEnv) : String :=
  "\n---\n" ++
  "🧑‍💻 **Actor**: @" ++ env.actor ++ "\n" ++
  "⚙️ **Event**: " ++ env.eventName ++ "\n" ++
  "📂 **Working Dir**: `" ++ env.workingDir ++ "`\n" ++
  "🏗️ **Workflow**: " ++ env.workflow ++ "\n" ++
  "🔗 **Run Logs**: [View here](https://github.com/" ++ env.repo ++
    "/actions/runs/" ++ env.runId ++ ")\n"

/-- `wd_visible` of the lint `main`:
`TF_ACTIONS_WORKING_DIR or os.environ.get("GITHUB_WORKSPACE", ".")`. -/
def wdVisible (env : LintEnv) : String :=
  if env.workingDir ≠ "" then env.workingDir else env.workspace.getD "."

def lint_hidden_marker (wd : String) : String :=
  "<!-- tflint:" ++ wd ++ " -->"

def lint_workflow_url (env : LintEnv) : String :=
  "https://github.com/" ++ env.ownerForUrl ++ "/" ++ env.repoName ++
    "/actions/runs/" ++ env.runId

/-- The `status` header fragment of the lint `main` (counts with
severity cues, or "no issues"). -/
def lint_status (t : SeverityTotals) : String :=
  let p1 : List String :=
    if t.error ≠ 0 then
      [natStr t.error ++ " ❌ error" ++ (if t.error ≠ 1 then "s" else "")]
    else []
  let p2 : List String :=
    if t.warning ≠ 0 then
      [natStr t.warning ++ " ⚠️ warning" ++ (if t.warning ≠ 1 then "s" else "")]
    else []
  let ps := p1 ++ p2
  let ps :=
    if ps.isEmpty ∧ t.info ≠ 0 then [natStr t.info ++ " ℹ️ info"] else ps
  if ps.isEmpty then "no issues" else String.intercalate ", " ps

def lint_header_md (env : LintEnv) (t : SeverityTotals) : String :=
  "## 🧹 TFLint for `" ++ wdVisible env ++ "` — " ++ lint_status t

def lint_helper_md : String :=
  "_How to read_: **Errors** block merges, **Warnings** need attention, **Info** is advisory.\n" ++
  "_Fix locally_: run `tflint --init && tflint` in this folder.\n\n" ++
  "---\n"

/-- The comment body assembled by the lint `main` (the non-delete,
posting path). -/
def lint_body (env : LintEnv) : String :=
  let files := parse_tflint_output env.tflintOutput
  let totals := totals_from_files files
  let url := lint_workflow_url env
  lint_header_md env totals ++ "\n\n" ++
  build_summary_md totals ++ "\n" ++ lint_helper_md ++
  build_details_html env files url ++ "\n" ++
  "🔗 [View run logs & artifacts](" ++ url ++ ")\n" ++
  lint_footer_md env ++ "\n" ++
  lint_hidden_marker (wdVisible env) ++ "\n"

/-! ## The plan script (`terraform_comment.py`) -/

/-- The environment and file system inputs of `terraform_comment.py`:
`planTxt` / `outputTxt` are the contents of
`{workingDir}/plan.txt` and `output.txt` when those files exist. -/
structure PlanEnv where
  workingDir : String
  prMarker : String
  addCount : String
  changeCount : String
  destroyCount : String
  actor : String
  runId : String
  ownerForUrl : String
  repoName : String
  ghSha : String
  serverUrl : Option String
  planTxt : Option String
  outputTxt : Option String

def strStartsWithL (s p : String) : Bool := p.data.isPrefixOf s.data

def strEndsWithL (s p : String) : Bool := p.data.isSuffixOf s.data

def planMarkerPhrase : String :=
  "Terraform used the selected providers to generate the following execution"

/-- The `for i, l in enumerate(lines): if phrase in l: start = i; break`
loop of `_extract_plan_only`: index of the first line containing the
execution-plan phrase. -/
def firstMarkerIdx : List (List Char) → Option Nat
  | [] => none
  | l :: rest =>
    if hasSubList l planMarkerPhrase.data then some 0
    else (firstMarkerIdx rest).map (· + 1)

/-- `_extract_plan_only`: drop the lines before the first one containing
the execution-plan phrase (index 0 when the phrase never occurs), join
with `"\n"` and strip. -/
def extract_plan_only (text : String) : String :=
  let lines := pySplitLines text
  let start := (firstMarkerIdx lines).getD 0
  pyStrip (String.intercalate "\n" ((lines.drop start).map String.mk))

def plan_workflow_url (env : PlanEnv) : String :=
  "https://github.com/" ++ env.ownerForUrl ++ "/" ++ env.repoName ++
    "/actions/runs/" ++ env.runId

/-- `footer_md()` of the plan script (the emoji literals are copied
byte-for-byte from the source, which stores them double-encoded). -/
def plan_footer_md (env : PlanEnv) : String :=
  let base :=
    "\n---\n" ++
    "ðŸ§‘â€ðŸ’» **Actor**: @" ++ env.actor ++ "\n" ++
    "ðŸ“‚ **Dir**: `" ++ env.workingDir ++ "`\n" ++
    "ðŸ”— **Run**: [logs](" ++ plan_workflow_url env ++ ")\n"
  if env.ghSha ≠ "" then
    base ++ "ðŸ”§ **Commit**: [" ++ String.mk (env.ghSha.data.take 7) ++
      "](" ++ env.serverUrl.getD "https://github.com" ++ "/" ++
      env.ownerForUrl ++ "/" ++ env.repoName ++ "/commit/" ++ env.ghSha ++
      ")\n"
  else base

def plan_build_summary_md (env : PlanEnv) : String :=
  "### ðŸš€ Terraform Plan Summary\n" ++
  "- âž• (+) **Add**: `" ++ env.addCount ++ "`\n" ++
  "- â™»ï¸ (~) **Change**: `" ++ env.changeCount ++ "`\n" ++
  "- ðŸ—‘ï¸ (-) **Destroy**: `" ++ env.destroyCount ++ "`\n\n" ++
  "âœ… **Plan succeeded**\n"

/-- The collapsible details wrapper of `read_plan_details` (the
closing code fence in the source is the two-character "``"). -/
def planDetailsWrap (body footer : String) : String :=
  "<details>\n" ++
  "<summary>ðŸ“– Details (Click me)</summary>\n\n" ++
  "```terraform\n" ++ body ++ "\n``" ++ "\n\n" ++
  footer ++ "</details>\n"

/-- `read_plan_details`: prefer `plan.txt`, fall back to `output.txt`,
else a fixed placeholder. -/
def read_plan_details (env : PlanEnv) (footer : String) : String :=
  match env.planTxt with
  | some text => planDetailsWrap (extract_plan_only text) footer
  | none =>
    match env.outputTxt with
    | some text => planDetailsWrap (extract_plan_only text) footer
    | none =>
      "<details>\n<summary>ðŸ“– Details (Click me)</summary>\n\n" ++
      "_Not available._\n\n" ++ footer ++ "</details>\n"

/-- The marker of the plan `main`: the provided `PR_COMMENT_MARKER`
when it is already an HTML comment, else synthesized from the working
directory. -/
def plan_marker_html (env : PlanEnv) : String :=
  if strStartsWithL env.prMarker "<!--" && strEndsWithL env.prMarker "-->" then
    env.prMarker
  else "<!-- tf-plan:" ++ env.workingDir ++ " -->"

def plan_header (env : PlanEnv) : String :=
  "## ðŸ“¦ Terraform Plan for `" ++ env.workingDir ++ "` " ++
    plan_marker_html env

/-- The comment body assembled by the plan `main`. -/
def plan_body (env : PlanEnv) : String :=
  let footer := plan_footer_md env
  plan_header env ++ "\n\n" ++ plan_build_summary_md env ++ "\n" ++
    read_plan_details env footer ++ "\n" ++ plan_marker_html env ++ "\n"

/-! ## Comment upsert (both `main`s) over the forge comment list

The remote comment list is modelled as explicit state; per the forge
REST semantics described in the spec, update (PATCH) replaces the body
of the comment with the given id and create (POST) appends a comment
with a fresh forge-assigned id. -/

structure PRComment where
  id : Nat
  body : String
deriving Repr, DecidableEq

/-- The body test of the lint `find_existing_comment_id`:
`hidden in body or marker in body`. -/
def lintCommentMatch (marker body : String) : Bool :=
  containsSub body ("<!-- tflint:" ++ marker ++ " -->") ||
    containsSub body marker

/-- Lint `find_existing_comment_id`: the first comment (in forge order)
whose body contains the hidden token or the raw marker string. -/
def lint_find_existing_comment_id (comments : List PRComment)
    (marker : String) : Option Nat :=
  (comments.find? (fun c => lintCommentMatch marker c.body)).map (·.id)

/-- Plan `find_existing_comment_id`: first comment containing the
marker HTML. -/
def plan_find_existing_comment_id (comments : List PRComment)
    (markerHtml : String) : Option Nat :=
  (comments.find? (fun c => containsSub c.body markerHtml)).map (·.id)

def update_comment (comments : List PRComment) (cid : Nat)
    (body : String) : List PRComment :=
  comments.map (fun c => if c.id = cid then { c with body := body } else c)

def create_comment (comments : List PRComment) (newId : Nat)
    (body : String) : List PRComment :=
  comments ++ [{ id := newId, body := body }]

/-- The upsert coordinator shared by both `main`s, over the locating
predicate of the respective pipeline: update the first matching
comment in place, else create a new one. -/
def upsert_comment (comments : List PRComment) (locate : String → Bool)
    (newId : Nat) (body : String) : List PRComment :=
  match (comments.find? (fun c => locate c.body)).map (·.id) with
  | some cid => update_comment comments cid body
  | none => create_comment comments newId body

/-! ## PR-number resolution -/

/-- The shapes of the event payload that `get_pr_number` inspects:
whether the top level has a `pull_request` key, the value of the
top-level `number` key, whether `issue.pull_request` exists, and the
value of `issue.number` (`none` models a missing key, whose `int(None)`
conversion raises). -/
structure EventPayload where
  hasPullRequestKey : Bool
  number : Option Int
  issuePR : Bool
  issueNumber : Option Int

/-- Reading the event file: missing path, unparseable JSON (the
`json.load` call raises), or a parsed payload. -/
inductive EventFile where
  | missing
  | invalid
  | payload (p : EventPayload)

/-- Lint `get_pr_number`: a missing file yields `none`; a `json.load`
failure propagates (nothing in the lint script catches it). -/
def lint_get_pr_number (e : EventFile) : Except String (Option Int) :=
  match e with
  | .missing => .ok none
  | .invalid => .error "json.load raises JSONDecodeError"
  | .payload p =>
    .ok (if p.hasPullRequestKey ∧ p.number.isSome then p.number else none)

/-- The outcome of the commit-association query of the plan fallback:
a raised-and-caught request error, or the list of PR numbers. -/
inductive PullsResult where
  | fail
  | ok (prs : List Int)

/-- Plan `get_pr_number`: payload errors are caught and logged, falling
through to the commit-association fallback (only attempted when
`GITHUB_SHA` is non-empty). -/
def plan_get_pr_number (e : EventFile) (ghSha : String)
    (pulls : PullsResult) : Option Int :=
  let fromEvent : Option Int :=
    match e with
    | .missing => none
    | .invalid => none
    | .payload p =>
      if p.hasPullRequestKey ∧ p.number.isSome then p.number
      else if p.issuePR then p.issueNumber
      else none
  match fromEvent with
  | some n => some n
  | none =>
    if ghSha ≠ "" then
      match pulls with
      | .fail => none
      | .ok [] => none
      | .ok (n :: _) => some n
    else none

/-! ## Observables used by the theorems -/

/-- The first line of a rendered body (the text before the first
newline). -/
def firstLine (s : String) : String :=
  String.mk (s.data.takeWhile (fun c => c ≠ '\n'))

/-- The severity levels `totals_from_files` reports on (notice being
folded into info). -/
def knownLevel (s : String) : Bool :=
  s = "error" || s = "warning" || s = "notice" || s = "info"

/-- Number of parsed issues whose level is one of the four reported
severities. -/
def countKnownIssues (files : List (String × List LintIssue)) : Nat :=
  (files.map (fun p => p.2.countP (fun i => knownLevel i.level))).sum

/-- Number of parsed issues with exactly the given level. -/
def countLevel (files : List (String × List LintIssue)) (k : String) : Nat :=
  (files.map (fun p => p.2.countP (fun i => i.level = k))).sum

/-- The acceptance test of the parser's line loop: non-blank,
non-summary, and matched by the line pattern. -/
def lineAccepted (l : List Char) : Bool :=
  !(l.all isPySpace) && !(isSummaryLine l) && (matchLine l).isSome

/-- A part emitted by `build_details_html` is a data row exactly when
it starts with the row tag. -/
def isDataRow (p : String) : Bool := "<tr>".data.isPrefixOf p.data

def dataRowCount (parts : List String) : Nat := parts.countP isDataRow

/-- A part is the truncation notice exactly when it starts with the
notice paragraph opener. -/
def isTruncNotice (p : String) : Bool := "<p>⏳".data.isPrefixOf p.data

def truncNoticeCount (parts : List String) : Nat :=
  parts.countP isTruncNotice

def openTag (tag : String) : String := "<" ++ tag ++ ">"

def closeTag (tag : String) : String := "</" ++ tag ++ ">"

/-- Occurrences of the opening form of an HTML block tag across the
joined output (the parts are joined with `"\n"`, which no tag
contains, so occurrences never span two parts). -/
def tagOpens (parts : List String) (tag : String) : Nat :=
  (parts.map (fun p => countSub p (openTag tag))).sum

def tagCloses (parts : List String) (tag : String) : Nat :=
  (parts.map (fun p => countSub p (closeTag tag))).sum

/-- The HTML block tags opened by `build_details_html`. -/
def blockTags : List String := ["details", "table", "thead", "tbody", "tr"]

/-- `s` holds no `'<'`: interpolating it into HTML cannot introduce a
tag. -/
def noLt (s : String) : Prop := ∀ c ∈ s.data, c ≠ '<'

/-- No nonempty proper-length suffix of `l` is a prefix of `p`: an
occurrence of `p` in `l ++ r` cannot start inside `l` and continue
into `r`. -/
def noSpanB (l p : List Char) : Bool :=
  l.tails.all (fun s =>
    s.isEmpty || decide (p.length ≤ s.length) || !(s.isPrefixOf p))

/-- Occurrences of `p` contributed by a literal chunk (interpolated
chunks contribute none once known to be `'<'`-free). -/
def chunkLitCount (p : List Char) : Chunk → Nat
  | .lit s => countSubList s.data p
  | .var _ => 0

/-! ## Concrete instances used by counterexamples and witnesses -/

def exLintEnv : LintEnv :=
  { ghSha := "", ownerForUrl := "o", repoName := "r", repo := "o/r",
    runId := "1", eventName := "pull_request", actor := "me",
    workflow := "wf", workingDir := ".", workspace := none,
    tflintOutput := "" }

def exLintEnvSha : LintEnv :=
  { ghSha := "deadbeef", ownerForUrl := "o", repoName := "r",
    repo := "o/r", runId := "1", eventName := "pull_request",
    actor := "me", workflow := "wf", workingDir := ".",
    workspace := none, tflintOutput := "a<b.tf:1:2: Error - boom" }

def exIssue : LintIssue :=
  { line := 1, col := 1, level := "error", rule := "", msg := "" }

/-- Two files totalling 501 issues: the first exactly fills the
500-row cap, the second is reached after the cap is full. -/
def exFilesOverCap : List (String × List LintIssue) :=
  [("a.tf", List.replicate 500 exIssue), ("b.tf", [exIssue])]

def examplePlanEnv : PlanEnv :=
  { workingDir := "infra", prMarker := "", addCount := "3",
    changeCount := "1", destroyCount := "0", actor := "me", runId := "1",
    ownerForUrl := "o", repoName := "r", ghSha := "", serverUrl := none,
    planTxt := none, outputTxt := none }

/-! ## Utility lemmas -/

theorem hasSubList_iff (l p : List Char) :
    hasSubList l p = true ↔ p <:+: l := by
  induction l with
  | nil =>
    simp [hasSubList, List.isPrefixOf_iff_prefix]
  | cons a t ih =>
    rw [hasSubList]
    simp [List.isPrefixOf_iff_prefix, ih, List.infix_cons_iff]

theorem containsSub_iff (s pat : String) :
    containsSub s pat = true ↔ pat.data <:+: s.data :=
  hasSubList_iff _ _

theorem mem_of_containsSub {s pat : String} {c : Char} (hc : c ∈ pat.data)
    (h : containsSub s pat = true) : c ∈ s.data := by
  rcases (containsSub_iff s pat).1 h with ⟨l, r, hlr⟩
  rw [← hlr]
  simp [hc]

theorem containsSub_single (s pat : String) (c : Char)
    (hp : pat.data = [c]) :
    containsSub s pat = decide (c ∈ s.data) := by
  by_cases h : c ∈ s.data
  · rcases List.append_of_mem h with ⟨l, r, hlr⟩
    have ht : containsSub s pat = true :=
      (containsSub_iff _ _).2 (by rw [hlr, hp]; exact ⟨l, r, by simp⟩)
    simp [ht, h]
  · have ht : containsSub s pat = false := by
      by_contra hcon
      rw [Bool.not_eq_false] at hcon
      exact h (mem_of_containsSub (by simp [hp]) hcon)
    simp [ht, h]

theorem find?_congr_fun {α : Type} {p q : α → Bool} (l : List α)
    (h : ∀ a, p a = q a) : l.find? p = l.find? q := by
  induction l with
  | nil => rfl
  | cons a t ih => simp only [List.find?_cons, h a, ih]

/-! ## C10 -/

/-- C10: the lint comment locator returns the id of the first comment
whose body contains the hidden token or the raw working-directory
string; with the default working directory `"."` this is exactly the
first comment whose body contains any `'.'` character, so (second
conjunct) a comment posted by an unrelated tool is selected. -/
theorem c10_lint_locator_matches_any_dot :
    (∀ comments : List PRComment,
        lint_find_existing_comment_id comments "." =
          (comments.find? (fun c => decide ('.' ∈ c.body.data))).map
            (·.id)) ∧
    lint_find_existing_comment_id
      [{ id := 7, body := "Terraform plan posted by another tool." }] "." =
      some 7 := by
  constructor
  · intro comments
    unfold lint_find_existing_comment_id
    congr 1
    apply find?_congr_fun
    intro c
    show lintCommentMatch "." c.body = decide ('.' ∈ c.body.data)
    unfold lintCommentMatch
    by_cases h : '.' ∈ c.body.data
    · have h1 : containsSub c.body "." = true := by
        rw [containsSub_single c.body "." '.' (by decide)]
        simp [h]
      simp [h1, h]
    · have h1 : containsSub c.body "." = false := by
        rw [containsSub_single c.body "." '.' (by decide)]
        simp [h]
      have h2 : containsSub c.body "<!-- tflint:. -->" = false := by
        by_contra hcon
        rw [Bool.not_eq_false] at hcon
        exact h (mem_of_containsSub (by decide) hcon)
      simp [h1, h2, h]
  · decide

/-! ## C6 -/

/-- C6 counterexample: an unreadable/invalid JSON event payload makes
the lint pipeline's `get_pr_number` raise (`json.load` is not inside
any `try`), rather than return "no PR found". -/
theorem c6_lint_invalid_payload_raises :
    lint_get_pr_number EventFile.invalid =
      Except.error "json.load raises JSONDecodeError" := rfl

/-- C6 amended: only the plan pipeline catches a malformed event
payload (behaving exactly as if the event file were absent and falling
through to the commit-association fallback, which yields the first
associated PR); the lint pipeline returns none for a missing event
file but propagates the JSON error on a malformed payload. -/
theorem c6_amended_payload_error_handling :
    (∀ (sha : String) (pulls : PullsResult),
        plan_get_pr_number EventFile.invalid sha pulls =
          plan_get_pr_number EventFile.missing sha pulls) ∧
    (∀ (sha : String) (n : Int) (rest : List Int), sha ≠ "" →
        plan_get_pr_number EventFile.invalid sha (PullsResult.ok (n :: rest)) =
          some n) ∧
    lint_get_pr_number EventFile.missing = Except.ok none ∧
    lint_get_pr_number EventFile.invalid =
      Except.error "json.load raises JSONDecodeError" := by
  refine ⟨fun sha pulls => rfl, fun sha n rest h => ?_, rfl, rfl⟩
  simp [plan_get_pr_number, h]

/-- Witness for the amended C6 at concrete inputs. -/
theorem c6_amended_payload_error_handling_witness :
    ("abc" : String) ≠ "" ∧
    plan_get_pr_number EventFile.invalid "abc" (PullsResult.ok [5, 9]) =
      some 5 :=
  ⟨by decide, c6_amended_payload_error_handling.2.1 "abc" 5 [9] (by decide)⟩

/-! ## C9 -/

theorem firstMarkerIdx_eq_none (ls : List (List Char))
    (h : ∀ l ∈ ls, hasSubList l planMarkerPhrase.data = false) :
    firstMarkerIdx ls = none := by
  induction ls with
  | nil => rfl
  | cons l rest ih =>
    have hl := h l (by simp)
    simp [firstMarkerIdx, hl, ih (fun l' hl' => h l' (by simp [hl']))]

theorem firstMarkerIdx_eq_some (pre : List (List Char)) (l : List Char)
    (post : List (List Char))
    (hpre : ∀ l' ∈ pre, hasSubList l' planMarkerPhrase.data = false)
    (hl : hasSubList l planMarkerPhrase.data = true) :
    firstMarkerIdx (pre ++ l :: post) = some pre.length := by
  induction pre with
  | nil => simp [firstMarkerIdx, hl]
  | cons p rest ih =>
    have hp := hpre p (by simp)
    simp [firstMarkerIdx, hp,
      ih (fun l' hl' => hpre l' (by simp [hl']))]

/-- C9 counterexample: on text without the execution-plan phrase the
extractor does not return the text unchanged — trailing whitespace and
the final newline are stripped. -/
theorem c9_no_marker_not_unchanged :
    extract_plan_only "x \n" = "x" ∧ ("x" : String) ≠ "x \n" := by
  constructor
  · decide
  · decide

/-- C9 amended: when no line contains the execution-plan marker
phrase, the extractor returns the whole text re-joined with `"\n"` and
stripped (line endings normalized and surrounding whitespace trimmed,
not byte-identical); when some line is the first to contain the
phrase, it returns the lines from that one onward, joined and
stripped. -/
theorem c9_amended_extract_characterization (text : String) :
    ((∀ l ∈ pySplitLines text, hasSubList l planMarkerPhrase.data = false) →
      extract_plan_only text =
        pyStrip (String.intercalate "\n"
          ((pySplitLines text).map String.mk))) ∧
    (∀ pre l post, pySplitLines text = pre ++ l :: post →
      (∀ l' ∈ pre, hasSubList l' planMarkerPhrase.data = false) →
      hasSubList l planMarkerPhrase.data = true →
      extract_plan_only text =
        pyStrip (String.intercalate "\n" ((l :: post).map String.mk))) := by
  constructor
  · intro h
    unfold extract_plan_only
    simp only [firstMarkerIdx_eq_none _ h, Option.getD_none, List.drop_zero]
  · intro pre l post heq hpre hl
    unfold extract_plan_only
    simp only [heq, firstMarkerIdx_eq_some pre l post hpre hl,
      Option.getD_some, List.drop_left]

/-- Witness for the amended C9 at a concrete input. -/
theorem c9_amended_extract_characterization_witness :
    (∀ l ∈ pySplitLines "a\nb", hasSubList l planMarkerPhrase.data = false) ∧
    extract_plan_only "a\nb" =
      pyStrip (String.intercalate "\n" ((pySplitLines "a\nb").map String.mk)) :=
  ⟨by decide, (c9_amended_extract_characterization "a\nb").1 (by decide)⟩

/-! ## C1 -/

/-- C1: running the upsert coordinator twice for the same marker and
pull request — starting from a comment list without a marker-carrying
comment, whose ids do not clash with the id the forge assigns to the
created comment, with both run bodies carrying the marker — leaves the
comment list with exactly one comment carrying the marker, whose body
is the second run's body (the second run updates in place; no
duplicate is created). -/
theorem c1_upsert_idempotent (initial : List PRComment)
    (locate : String → Bool) (id1 id2 : Nat) (b1 b2 : String)
    (h0 : ∀ c ∈ initial, locate c.body = false)
    (h1 : locate b1 = true) (h2 : locate b2 = true)
    (hid : ∀ c ∈ initial, c.id ≠ id1) :
    upsert_comment (upsert_comment initial locate id1 b1) locate id2 b2 =
      initial ++ [{ id := id1, body := b2 }] ∧
    (upsert_comment (upsert_comment initial locate id1 b1) locate id2 b2).filter
        (fun c => locate c.body) = [{ id := id1, body := b2 }] := by
  have hf0 : initial.find? (fun c => locate c.body) = none :=
    List.find?_eq_none.2 (fun x hx => by simp [h0 x hx])
  have s1 : upsert_comment initial locate id1 b1 =
      initial ++ [{ id := id1, body := b1 }] := by
    unfold upsert_comment create_comment
    rw [hf0]
    rfl
  have hf1 : (initial ++ [({ id := id1, body := b1 } : PRComment)]).find?
      (fun c => locate c.body) = some { id := id1, body := b1 } := by
    rw [List.find?_append, hf0]
    simp [List.find?, h1]
  have hmap : ∀ (l : List PRComment), (∀ c ∈ l, c.id ≠ id1) →
      l.map (fun c => if c.id = id1 then { c with body := b2 } else c) = l := by
    intro l hl
    induction l with
    | nil => rfl
    | cons a t ih =>
      have ha := hl a (List.mem_cons_self a t)
      have ht := fun c hc => hl c (List.mem_cons_of_mem a hc)
      simp only [List.map_cons, if_neg ha, ih ht]
  have s2 : upsert_comment (initial ++ [{ id := id1, body := b1 }]) locate id2 b2 =
      initial ++ [{ id := id1, body := b2 }] := by
    unfold upsert_comment update_comment
    rw [hf1]
    simp only [Option.map_some']
    rw [List.map_append, hmap initial hid]
    simp
  have hfil : (initial ++ [({ id := id1, body := b2 } : PRComment)]).filter
      (fun c => locate c.body) = [{ id := id1, body := b2 }] := by
    rw [List.filter_append]
    have hnil : initial.filter (fun c => locate c.body) = [] := by
      rw [List.filter_eq_nil_iff]
      intro a ha
      simp [h0 a ha]
    rw [hnil]
    simp [List.filter, h2]
  rw [s1, s2]
  exact ⟨rfl, hfil⟩

/-- Witness for C1 at a concrete comment list, marker predicate and
bodies. -/
theorem c1_upsert_idempotent_witness :
    ((∀ c ∈ [({ id := 1, body := "hello" } : PRComment)],
        containsSub c.body "<!-- m -->" = false) ∧
      containsSub "a <!-- m -->" "<!-- m -->" = true ∧
      containsSub "b <!-- m -->" "<!-- m -->" = true ∧
      (∀ c ∈ [({ id := 1, body := "hello" } : PRComment)], c.id ≠ 2)) ∧
    upsert_comment
        (upsert_comment [{ id := 1, body := "hello" }]
          (fun b => containsSub b "<!-- m -->") 2 "a <!-- m -->")
        (fun b => containsSub b "<!-- m -->") 3 "b <!-- m -->" =
      [{ id := 1, body := "hello" }, { id := 2, body := "b <!-- m -->" }] :=
  ⟨⟨by decide, by decide, by decide, by decide⟩,
    by
      have h := (c1_upsert_idempotent [{ id := 1, body := "hello" }]
        (fun b => containsSub b "<!-- m -->") 2 3 "a <!-- m -->" "b <!-- m -->"
        (by decide) (by decide) (by decide) (by decide)).1
      simpa using h⟩

/-! ## C7 -/

theorem takeWhile_append_cons (q : Char → Bool) (l : List Char) (c : Char)
    (r : List Char) (hl : ∀ x ∈ l, q x = true) (hc : q c = false) :
    (l ++ c :: r).takeWhile q = l := by
  induction l with
  | nil => simp [List.takeWhile_cons, hc]
  | cons a t ih =>
    have ha := hl a (by simp)
    simp [List.takeWhile_cons, ha, ih (fun x hx => hl x (by simp [hx]))]

theorem all_ne_of_all (l : List Char) (c0 : Char)
    (h : l.all (fun x => decide (x ≠ c0)) = true) : ∀ c ∈ l, c ≠ c0 := by
  intro c hc
  have := List.all_eq_true.1 h c hc
  simpa using this

theorem strEndsWithL_append_append (y m n : String) :
    strEndsWithL (y ++ m ++ n) (m ++ n) = true := by
  unfold strEndsWithL
  rw [List.isSuffixOf_iff_suffix]
  show (m ++ n).data <:+ (y ++ m ++ n).data
  rw [String.data_append, String.data_append, String.data_append,
    List.append_assoc]
  exact List.suffix_append _ _

/-- C7 counterexample: in the lint pipeline the one-line header of the
rendered body does not contain the hidden marker token (the marker
appears only at the very end of the body). -/
theorem c7_lint_header_lacks_marker :
    containsSub (firstLine (lint_body exLintEnv))
      (lint_hidden_marker (wdVisible exLintEnv)) = false := by decide

/-- C7 amended: the plan pipeline's body starts with a one-line header
containing the marker token and ends with the marker; the lint
pipeline's body carries its hidden marker only at the end. -/
theorem c7_amended_marker_placement (penv : PlanEnv) (lenv : LintEnv)
    (hwd : ∀ c ∈ penv.workingDir.data, c ≠ '\n')
    (hmk : ∀ c ∈ penv.prMarker.data, c ≠ '\n') :
    containsSub (firstLine (plan_body penv)) (plan_marker_html penv) = true ∧
    strEndsWithL (plan_body penv) (plan_marker_html penv ++ "\n") = true ∧
    strEndsWithL (lint_body lenv)
      (lint_hidden_marker (wdVisible lenv) ++ "\n") = true := by
  have hmarker : ∀ c ∈ (plan_marker_html penv).data, c ≠ '\n' := by
    unfold plan_marker_html
    split
    · exact hmk
    · intro c hc
      simp only [String.data_append, List.append_assoc, List.mem_append] at hc
      rcases hc with h | h | h
      · exact all_ne_of_all _ _ (by decide) c h
      · exact hwd c h
      · exact all_ne_of_all _ _ (by decide) c h
  have hheader : ∀ c ∈ (plan_header penv).data, c ≠ '\n' := by
    unfold plan_header
    intro c hc
    simp only [String.data_append, List.append_assoc, List.mem_append] at hc
    rcases hc with h | h | h | h
    · exact all_ne_of_all _ _ (by decide) c h
    · exact hwd c h
    · exact all_ne_of_all _ _ (by decide) c h
    · exact hmarker c h
  have hbody : (plan_body penv).data =
      (plan_header penv).data ++ '\n' :: '\n' ::
        ((plan_build_summary_md penv).data ++ '\n' ::
          ((read_plan_details penv (plan_footer_md penv)).data ++ '\n' ::
            ((plan_marker_html penv).data ++ ['\n']))) := by
    unfold plan_body
    simp [String.data_append, List.append_assoc]
  have hfl : firstLine (plan_body penv) = String.mk (plan_header penv).data := by
    unfold firstLine
    rw [hbody, takeWhile_append_cons _ _ _ _
      (fun x hx => by simp [hheader x hx]) (by decide)]
  refine ⟨?_, ?_, ?_⟩
  · rw [hfl]
    apply (containsSub_iff _ _).2
    show (plan_marker_html penv).data <:+: (plan_header penv).data
    unfold plan_header
    refine ⟨("## ðŸ“¦ Terraform Plan for `" ++ penv.workingDir ++ "` ").data,
      [], ?_⟩
    simp [String.data_append, List.append_assoc]
  · unfold plan_body
    exact strEndsWithL_append_append _ _ _
  · unfold lint_body
    exact strEndsWithL_append_append _ _ _

/-- Witness for the amended C7 at concrete environments. -/
theorem c7_amended_marker_placement_witness :
    ((∀ c ∈ (examplePlanEnv).workingDir.data, c ≠ '\n') ∧
      (∀ c ∈ (examplePlanEnv).prMarker.data, c ≠ '\n')) ∧
    containsSub (firstLine (plan_body examplePlanEnv))
      (plan_marker_html examplePlanEnv) = true :=
  ⟨⟨by decide, by decide⟩,
    (c7_amended_marker_placement examplePlanEnv exLintEnv
      (by decide) (by decide)).1⟩

/-! ## C3 -/

theorem foldBump_apply (issues : List LintIssue) (t : String → Nat)
    (k : String) :
    issues.foldl (fun t i => bumpCount t i.level) t k =
      t k + issues.countP (fun i => i.level = k) := by
  induction issues generalizing t with
  | nil => simp
  | cons i rest ih =>
    rw [List.foldl_cons, ih, List.countP_cons]
    unfold bumpCount
    by_cases h : i.level = k
    · rw [if_pos h.symm, h]
      simp
      omega
    · rw [if_neg (fun hh => h hh.symm)]
      simp [h]

theorem foldBumpFiles_apply (files : List (String × List LintIssue))
    (t : String → Nat) (k : String) :
    files.foldl (fun t p => p.2.foldl (fun t i => bumpCount t i.level) t) t k =
      t k + countLevel files k := by
  induction files generalizing t with
  | nil => simp [countLevel]
  | cons p rest ih =>
    rw [List.foldl_cons, ih, foldBump_apply]
    unfold countLevel
    simp
    omega

theorem totals_fields (files : List (String × List LintIssue)) :
    (totals_from_files files).error = countLevel files "error" ∧
    (totals_from_files files).warning = countLevel files "warning" ∧
    (totals_from_files files).info =
      countLevel files "info" + countLevel files "notice" ∧
    (totals_from_files files).total =
      countLevel files "error" + countLevel files "warning" +
        (countLevel files "info" + countLevel files "notice") := by
  unfold totals_from_files
  refine ⟨?_, ?_, ?_, ?_⟩ <;> simp [foldBumpFiles_apply]

theorem countP_known_split (l : List LintIssue) :
    l.countP (fun i => knownLevel i.level) =
      l.countP (fun i => i.level = "error") +
      l.countP (fun i => i.level = "warning") +
      l.countP (fun i => i.level = "notice") +
      l.countP (fun i => i.level = "info") := by
  induction l with
  | nil => rfl
  | cons i rest ih =>
    simp only [List.countP_cons, ih]
    by_cases h1 : i.level = "error"
    · simp [knownLevel, h1]; omega
    · by_cases h2 : i.level = "warning"
      · simp [knownLevel, h2]; omega
      · by_cases h3 : i.level = "notice"
        · simp [knownLevel, h3]; omega
        · by_cases h4 : i.level = "info"
          · simp [knownLevel, h4]; omega
          · simp [knownLevel, h1, h2, h3, h4]

theorem countKnown_split (files : List (String × List LintIssue)) :
    countKnownIssues files =
      countLevel files "error" + countLevel files "warning" +
      countLevel files "notice" + countLevel files "info" := by
  induction files with
  | nil => rfl
  | cons p rest ih =>
    unfold countKnownIssues countLevel at *
    simp only [List.map_cons, List.sum_cons]
    rw [countP_known_split p.2]
    omega

/-- C3 counterexample: the line `main.tf:1:1: Fatal - boom` parses to
one issue (level "fatal"), but the derived totals count it nowhere, so
the grand total (0) differs from the number of parsed issues (1). -/
theorem c3_fatal_level_not_counted :
    totals_from_files (parse_tflint_output "main.tf:1:1: Fatal - boom") =
      { error := 0, warning := 0, info := 0, total := 0 } ∧
    totalIssues (parse_tflint_output "main.tf:1:1: Fatal - boom") = 1 := by
  constructor
  · decide
  · decide

/-- C3 amended: the totals always satisfy
`total = error + warning + info` (with notice folded into info), and
the grand total equals the number of parsed issues whose level is one
of error/warning/notice/info — issues with any other alphabetic level
are parsed but appear in no total. -/
theorem c3_amended_totals_identity (text : String) :
    (totals_from_files (parse_tflint_output text)).total =
      (totals_from_files (parse_tflint_output text)).error +
        (totals_from_files (parse_tflint_output text)).warning +
        (totals_from_files (parse_tflint_output text)).info ∧
    (totals_from_files (parse_tflint_output text)).total =
      countKnownIssues (parse_tflint_output text) := by
  obtain ⟨he, hw, hi, ht⟩ := totals_fields (parse_tflint_output text)
  constructor
  · rw [he, hw, hi, ht]
  · rw [ht, countKnown_split]
    omega

/-! ## C5 -/

theorem insertSorted_perm {α : Type} (le : α → α → Bool) (a : α)
    (l : List α) : List.Perm (insertSorted le a l) (a :: l) := by
  induction l with
  | nil => rfl
  | cons b t ih =>
    unfold insertSorted
    split
    · rfl
    · exact (ih.cons b).trans (List.Perm.swap a b t)

theorem stableSort_perm {α : Type} (le : α → α → Bool) (l : List α) :
    List.Perm (stableSort le l) l := by
  induction l with
  | nil => rfl
  | cons a t ih =>
    exact (insertSorted_perm le a (stableSort le t)).trans (ih.cons a)

theorem totalIssues_perm {a b : List (String × List LintIssue)}
    (h : List.Perm a b) : totalIssues a = totalIssues b := by
  unfold totalIssues
  exact (h.map _).sum_eq

theorem totalIssues_map_sort (fs : List (String × List LintIssue)) :
    totalIssues (fs.map (fun p => (p.1, stableSort issueLe p.2))) =
      totalIssues fs := by
  unfold totalIssues
  rw [List.map_map]
  congr 1
  apply List.map_congr_left
  intro p _
  simp [(stableSort_perm issueLe p.2).length_eq]

theorem totalIssues_insertIssue (fs : List (String × List LintIssue))
    (f : String) (i : LintIssue) :
    totalIssues (insertIssue fs f i) = totalIssues fs + 1 := by
  induction fs with
  | nil => simp [insertIssue, totalIssues]
  | cons p rest ih =>
    unfold insertIssue
    split
    · simp [totalIssues]
      omega
    · simp only [totalIssues, List.map_cons, List.sum_cons] at *
      omega

theorem collect_count (ls : List (List Char))
    (fs : List (String × List LintIssue)) :
    totalIssues (ls.foldl
      (fun fs l =>
        if l.all isPySpace then fs
        else if isSummaryLine l then fs
        else
          match matchLine l with
          | some (f, i) => insertIssue fs f i
          | none => fs) fs) =
      totalIssues fs + ls.countP lineAccepted := by
  induction ls generalizing fs with
  | nil => simp
  | cons l rest ih =>
    rw [List.foldl_cons, ih, List.countP_cons]
    unfold lineAccepted
    by_cases hb : l.all isPySpace
    · simp [hb]
    · by_cases hs : isSummaryLine l
      · simp [hb, hs]
      · cases hml : matchLine l with
        | none => simp [hb, hs, hml]
        | some p =>
          cases p with
          | mk f i => simp [hb, hs, hml, totalIssues_insertIssue]; omega

/-- C5: for every input text the parser (a total function: it cannot
raise) collects exactly the lines that are non-blank, non-summary and
match the fixed pattern — blank lines, summary lines and malformed
lines contribute no issue, every other matching line contributes
exactly one. -/
theorem c5_parser_total_and_selective (text : String) :
    totalIssues (parse_tflint_output text) =
      (pySplitLines text).countP lineAccepted := by
  unfold parse_tflint_output collectIssues
  rw [totalIssues_perm (stableSort_perm fileLe _), totalIssues_map_sort,
    collect_count]
  simp [totalIssues]

/-! ## C4 -/

theorem dropWhile_append_cons (q : Char → Bool) (l : List Char) (c : Char)
    (r : List Char) (hl : ∀ x ∈ l, q x = true) (hc : q c = false) :
    (l ++ c :: r).dropWhile q = c :: r := by
  induction l with
  | nil => simp [List.dropWhile_cons, hc]
  | cons a t ih =>
    have ha := hl a (by simp)
    simp [List.dropWhile_cons, ha, ih (fun x hx => hl x (by simp [hx]))]

theorem not_break_ne {c c0 : Char} (h : isLineBreak c = false)
    (h0 : isLineBreak c0 = true) : c ≠ c0 := by
  intro he
  rw [he, h0] at h
  cases h

theorem alpha_not_space {c : Char} (h : c.isAlpha = true) :
    isPySpace c = false := by
  by_contra hcon
  rw [Bool.not_eq_false] at hcon
  unfold isPySpace at hcon
  simp only [Bool.or_eq_true, decide_eq_true_eq, or_assoc] at hcon
  rcases hcon with h1|h1|h1|h1|h1|h1|h1|h1|h1|h1|h1|h1|h1|h1|h1 <;>
    (subst h1; exact absurd h (by decide))

theorem alpha_not_break {c : Char} (h : c.isAlpha = true) :
    isLineBreak c = false := by
  by_contra hcon
  rw [Bool.not_eq_false] at hcon
  unfold isLineBreak at hcon
  simp only [Bool.or_eq_true, decide_eq_true_eq, or_assoc] at hcon
  rcases hcon with h1|h1|h1|h1|h1|h1|h1|h1|h1|h1 <;>
    (subst h1; exact absurd h (by decide))

theorem digit_not_break {c : Char} (h : c.isDigit = true) :
    isLineBreak c = false := by
  by_contra hcon
  rw [Bool.not_eq_false] at hcon
  unfold isLineBreak at hcon
  simp only [Bool.or_eq_true, decide_eq_true_eq, or_assoc] at hcon
  rcases hcon with h1|h1|h1|h1|h1|h1|h1|h1|h1|h1 <;>
    (subst h1; exact absurd h (by decide))

theorem splitLinesAux_no_break (l : List Char) :
    ∀ (b : Bool) (acc : List Char), (∀ c ∈ l, isLineBreak c = false) →
    acc.reverse ++ l ≠ [] → splitLinesAux l b acc = [acc.reverse ++ l] := by
  induction l with
  | nil =>
    intro b acc _ hne
    cases acc with
    | nil => simp at hne
    | cons a t =>
      rw [List.append_nil]
      rfl
  | cons c rest ih =>
    intro b acc h hne
    have hc := h c (by simp)
    have hcn : ¬ (c = '\n') := not_break_ne hc (by decide)
    rw [splitLinesAux]
    rw [if_neg (by simp [hcn]), if_neg (by simp [hc]),
      ih false (c :: acc) (fun x hx => h x (by simp [hx])) (by simp)]
    simp

theorem pySplitLines_single (l : List Char) (hne : l ≠ [])
    (h : ∀ c ∈ l, isLineBreak c = false) :
    pySplitLines (String.mk l) = [l] := by
  unfold pySplitLines
  rw [show (String.mk l).data = l from rfl,
    splitLinesAux_no_break l false [] h (by simpa)]
  simp

theorem dropWhile_idem (p : Char → Bool) (l : List Char) :
    (l.dropWhile p).dropWhile p = l.dropWhile p := by
  induction l with
  | nil => rfl
  | cons a t ih =>
    rw [List.dropWhile_cons]
    by_cases hp : p a = true
    · simp [hp, ih]
    · simp only [hp]
      simp only [Bool.false_eq_true, if_false]
      rw [List.dropWhile_cons, if_neg (by simp [hp])]

theorem dropWhile_eq_self_of_prefixOf (p : Char → Bool) {m x : List Char}
    (hpre : m <+: x) (hx : x.dropWhile p = x) : m.dropWhile p = m := by
  cases m with
  | nil => rfl
  | cons a t =>
    rcases hpre with ⟨s, hs⟩
    have hpa : p a = false := by
      by_contra hcon
      rw [Bool.not_eq_false] at hcon
      rw [← hs, List.cons_append, List.dropWhile_cons, if_pos hcon] at hx
      have hlen := congrArg List.length hx
      have hle := ((List.dropWhile_suffix p (l := t ++ s)).sublist).length_le
      simp only [List.length_cons, List.length_append] at hlen hle
      omega
    rw [List.dropWhile_cons, if_neg (by simp [hpa])]

theorem dropWhile_append_of_all (p : Char → Bool) (l r : List Char)
    (h : ∀ x ∈ l, p x = true) :
    (l ++ r).dropWhile p = r.dropWhile p := by
  induction l with
  | nil => simp
  | cons a t ih =>
    simp [List.dropWhile_cons, h a (by simp),
      ih (fun x hx => h x (by simp [hx]))]

theorem dropWhile_append_of_exists (p : Char → Bool) (l r : List Char)
    (h : ∃ x ∈ l, p x = false) :
    (l ++ r).dropWhile p = l.dropWhile p ++ r := by
  induction l with
  | nil => rcases h with ⟨x, hx, _⟩; simp at hx
  | cons a t ih =>
    by_cases hpa : p a = true
    · rcases h with ⟨x, hx, hpx⟩
      rcases List.mem_cons.1 hx with rfl | hxt
      · rw [hpa] at hpx; cases hpx
      · simp [List.dropWhile_cons, hpa, ih ⟨x, hxt, hpx⟩]
    · simp [List.dropWhile_cons, hpa]

theorem rstripL_eq_nil_of_all (l : List Char)
    (h : ∀ c ∈ l, isPySpace c = true) : rstripL l = [] := by
  unfold rstripL
  have hd : l.reverse.dropWhile isPySpace = [] :=
    List.dropWhile_eq_nil_iff.2 (fun a ha => h a (List.mem_reverse.1 ha))
  simp [hd]

theorem rstripL_cons_of_not_all (c : Char) (rest : List Char)
    (h : ∃ x ∈ rest, isPySpace x = false) :
    rstripL (c :: rest) = c :: rstripL rest := by
  unfold rstripL
  rw [List.reverse_cons, dropWhile_append_of_exists _ _ _
    (by rcases h with ⟨x, hx, hpx⟩; exact ⟨x, List.mem_reverse.2 hx, hpx⟩)]
  simp

theorem rstripL_cons_of_all (c : Char) (rest : List Char)
    (hc : isPySpace c = false) (h : ∀ x ∈ rest, isPySpace x = true) :
    rstripL (c :: rest) = [c] := by
  unfold rstripL
  rw [List.reverse_cons, dropWhile_append_of_all _ _ _
    (fun x hx => h x (List.mem_reverse.1 hx))]
  simp [List.dropWhile_cons, hc]

theorem rstripL_idem (l : List Char) : rstripL (rstripL l) = rstripL l := by
  unfold rstripL
  rw [List.reverse_reverse, dropWhile_idem]

theorem rstripL_prefixOf (l : List Char) : rstripL l <+: l := by
  unfold rstripL
  have h := List.dropWhile_suffix (p := isPySpace) (l := l.reverse)
  have h2 := List.reverse_prefix.2 h
  rwa [List.reverse_reverse] at h2

theorem pyStripList_eq (l : List Char) :
    pyStripList l = rstripL (l.dropWhile isPySpace) := rfl

theorem pyStripList_idem (l : List Char) :
    pyStripList (pyStripList l) = pyStripList l := by
  rw [pyStripList_eq, pyStripList_eq]
  rw [dropWhile_eq_self_of_prefixOf isPySpace (rstripL_prefixOf _)
    (dropWhile_idem _ _), rstripL_idem]

theorem ruleMatch_eq_none (u : List Char) (h : '(' ∉ u) :
    ruleMatch u = none := by
  unfold ruleMatch
  split
  · rfl
  · next c w heq =>
    have hc : ¬ (c = '(') := by
      intro he
      apply h
      have hsub : u.dropWhile isPySpace <:+ u := List.dropWhile_suffix _
      apply hsub.subset
      rw [heq, he]
      simp
    rw [if_neg hc]

theorem msgRule_no_paren (u : List Char) (h : '(' ∉ u) :
    msgRule u = some (rstripL u, []) := by
  induction u with
  | nil => rfl
  | cons c rest ih =>
    rw [msgRule, ruleMatch_eq_none _ h]
    simp only [Option.elim]
    by_cases hall : (c :: rest).all isPySpace = true
    · rw [if_pos hall, rstripL_eq_nil_of_all _ (List.all_eq_true.1 hall)]
    · rw [if_neg (by simp [hall])]
      have hr := ih (fun hmem => h (List.mem_cons_of_mem c hmem))
      simp only [hr, Option.map_some']
      by_cases hrest : ∀ x ∈ rest, isPySpace x = true
      · have hca : isPySpace c = false := by
          by_contra hcon
          rw [Bool.not_eq_false] at hcon
          exact hall (List.all_eq_true.2 (fun x hx => by
            rcases List.mem_cons.1 hx with rfl | hxr
            · exact hcon
            · exact hrest x hxr))
        rw [rstripL_cons_of_all c rest hca hrest,
          rstripL_eq_nil_of_all rest hrest]
      · have hex : ∃ x ∈ rest, isPySpace x = false := by
          push_neg at hrest
          rcases hrest with ⟨x, hx, hpx⟩
          exact ⟨x, hx, by simpa using hpx⟩
        rw [rstripL_cons_of_not_all c rest hex]

theorem matchLine_wellFormed (file ds1 ds2 lvl' msg : List Char) (a : Char)
    (hf : file ≠ []) (hfc : ∀ c ∈ file, c ≠ ':')
    (hfn : ∀ c ∈ file, c ≠ '\n')
    (hd1 : ds1 ≠ []) (hd1d : ∀ c ∈ ds1, c.isDigit = true)
    (hd2 : ds2 ≠ []) (hd2d : ∀ c ∈ ds2, c.isDigit = true)
    (ha : a.isAlpha = true) (hlvd : ∀ c ∈ lvl', c.isAlpha = true)
    (hmp : '(' ∉ msg) :
    matchLine (file ++ ':' :: (ds1 ++ ':' :: (ds2 ++ ':' :: ' ' ::
        ((a :: lvl') ++ ' ' :: '-' :: ' ' :: msg)))) =
      some (String.mk (pyStripList file),
        { line := digitsToNat ds1, col := digitsToNat ds2,
          level := String.mk ((a :: lvl').map Char.toLower), rule := "",
          msg := String.mk (pyStripList msg) }) := by
  have hq : ∀ x ∈ file,
      (fun c => (¬ (c = ':' ∨ c = '\n') : Bool)) x = true := by
    intro x hx
    simp [hfc x hx, hfn x hx]
  have hfe : ¬ (file.isEmpty = true) := by
    cases file with
    | nil => exact absurd rfl hf
    | cons x xs => simp
  have hd1e : ¬ (ds1.isEmpty = true) := by
    cases ds1 with
    | nil => exact absurd rfl hd1
    | cons x xs => simp
  have hd2e : ¬ (ds2.isEmpty = true) := by
    cases ds2 with
    | nil => exact absurd rfl hd2
    | cons x xs => simp
  have hmp2 : '(' ∉ msg.dropWhile isPySpace :=
    fun hmem => hmp ((List.dropWhile_suffix isPySpace).subset hmem)
  simp only [matchLine]
  rw [takeWhile_append_cons (fun c => (¬ (c = ':' ∨ c = '\n') : Bool))
      file ':' _ hq (by decide),
    dropWhile_append_cons (fun c => (¬ (c = ':' ∨ c = '\n') : Bool))
      file ':' _ hq (by decide)]
  simp only []
  rw [if_neg (show ¬ (':' : Char) ≠ ':' by decide), if_neg hfe,
    takeWhile_append_cons Char.isDigit ds1 ':' _ hd1d (by decide),
    dropWhile_append_cons Char.isDigit ds1 ':' _ hd1d (by decide)]
  simp only []
  rw [if_neg (show ¬ (':' : Char) ≠ ':' by decide), if_neg hd1e,
    takeWhile_append_cons Char.isDigit ds2 ':' _ hd2d (by decide),
    dropWhile_append_cons Char.isDigit ds2 ':' _ hd2d (by decide)]
  simp only []
  rw [if_neg (show ¬ (':' : Char) ≠ ':' by decide), if_neg hd2e]
  rw [List.dropWhile_cons, if_pos (show isPySpace ' ' = true by decide),
    List.cons_append, List.dropWhile_cons,
    if_neg (show ¬ (isPySpace a = true) by simp [alpha_not_space ha])]
  rw [List.takeWhile_cons, if_pos ha,
    takeWhile_append_cons Char.isAlpha lvl' ' ' _ hlvd (by decide)]
  rw [if_neg (show ¬ ((a :: lvl').isEmpty = true) by simp)]
  rw [List.dropWhile_cons, if_pos ha,
    dropWhile_append_cons Char.isAlpha lvl' ' ' _ hlvd (by decide)]
  rw [List.dropWhile_cons, if_pos (show isPySpace ' ' = true by decide),
    List.dropWhile_cons,
    if_neg (show ¬ (isPySpace '-' = true) by decide)]
  simp only []
  rw [if_neg (show ¬ ('-' : Char) ≠ '-' by decide)]
  rw [List.dropWhile_cons, if_pos (show isPySpace ' ' = true by decide),
    msgRule_no_paren _ hmp2]
  simp only []
  rw [show rstripL (msg.dropWhile isPySpace) = pyStripList msg from
      (pyStripList_eq msg).symm,
    pyStripList_idem]
  rfl

/-- C4 counterexample: `no issues.tf:3:4: Error - boom` is a line in
the fixed shape (the line pattern matches it), has no rule suffix, yet
parsing yields no issue at all — the summary filter discards any line
whose text contains "no issues", so this line does not parse with an
empty rule as the claim states. -/
theorem c4_summary_shaped_line_dropped :
    (matchLine "no issues.tf:3:4: Error - boom".data).isSome = true ∧
    parse_tflint_output "no issues.tf:3:4: Error - boom" = [] := by
  constructor
  · decide
  · decide

/-- C4 amended: the example line parses exactly as the claim states;
and every line in the fixed shape whose text does not contain the
summary phrases, whose message contains no opening parenthesis (a
parenthesised message tail would be taken as the rule) and whose
components contain no line-break characters parses to a single issue
with an empty rule. -/
theorem c4_amended_rule_optional :
    parse_tflint_output
        "main.tf:10:5: Warning - unused variable (terraform_unused_declarations)" =
      [("main.tf",
        [{ line := 10, col := 5, level := "warning",
           rule := "terraform_unused_declarations",
           msg := "unused variable" }])] ∧
    (∀ (file ds1 ds2 lvl' msg : List Char) (a : Char),
      file ≠ [] → (∀ c ∈ file, c ≠ ':') →
      (∀ c ∈ file, isLineBreak c = false) →
      ds1 ≠ [] → (∀ c ∈ ds1, c.isDigit = true) →
      ds2 ≠ [] → (∀ c ∈ ds2, c.isDigit = true) →
      a.isAlpha = true → (∀ c ∈ lvl', c.isAlpha = true) →
      '(' ∉ msg → (∀ c ∈ msg, isLineBreak c = false) →
      isSummaryLine (file ++ ':' :: (ds1 ++ ':' :: (ds2 ++ ':' :: ' ' ::
        ((a :: lvl') ++ ' ' :: '-' :: ' ' :: msg)))) = false →
      parse_tflint_output (String.mk (file ++ ':' :: (ds1 ++ ':' ::
          (ds2 ++ ':' :: ' ' :: ((a :: lvl') ++ ' ' :: '-' :: ' ' :: msg))))) =
        [(String.mk (pyStripList file),
          [{ line := digitsToNat ds1, col := digitsToNat ds2,
             level := String.mk ((a :: lvl').map Char.toLower), rule := "",
             msg := String.mk (pyStripList msg) }])]) := by
  constructor
  · decide
  · intro file ds1 ds2 lvl' msg a hf hfc hfb hd1 hd1d hd2 hd2d ha hlvd hmp
      hmb hsum
    have hfn : ∀ c ∈ file, c ≠ '\n' :=
      fun c hc => not_break_ne (hfb c hc) (by decide)
    have hnb : ∀ c ∈ (file ++ ':' :: (ds1 ++ ':' :: (ds2 ++ ':' :: ' ' ::
        ((a :: lvl') ++ ' ' :: '-' :: ' ' :: msg)))),
        isLineBreak c = false := by
      simp only [List.forall_mem_append, List.forall_mem_cons]
      exact ⟨hfb, by decide, ⟨fun c hc => digit_not_break (hd1d c hc),
        by decide, ⟨fun c hc => digit_not_break (hd2d c hc), by decide,
        by decide, ⟨⟨alpha_not_break ha,
          fun c hc => alpha_not_break (hlvd c hc)⟩,
        by decide, by decide, by decide, hmb⟩⟩⟩⟩
    have hLne : (file ++ ':' :: (ds1 ++ ':' :: (ds2 ++ ':' :: ' ' ::
        ((a :: lvl') ++ ' ' :: '-' :: ' ' :: msg)))) ≠ [] := by
      simp
    have hcolon : ':' ∈ (file ++ ':' :: (ds1 ++ ':' :: (ds2 ++ ':' :: ' ' ::
        ((a :: lvl') ++ ' ' :: '-' :: ' ' :: msg)))) := by
      simp
    have hblank : ¬ ((file ++ ':' :: (ds1 ++ ':' :: (ds2 ++ ':' :: ' ' ::
        ((a :: lvl') ++ ' ' :: '-' :: ' ' :: msg)))).all isPySpace = true) := by
      intro hcon
      exact absurd (List.all_eq_true.1 hcon ':' hcolon) (by decide)
    unfold parse_tflint_output collectIssues
    rw [pySplitLines_single _ hLne hnb]
    simp only [List.foldl_cons, List.foldl_nil]
    rw [if_neg hblank, if_neg (by simpa using hsum),
      matchLine_wellFormed file ds1 ds2 lvl' msg a hf hfc hfn hd1 hd1d hd2
        hd2d ha hlvd hmp]
    simp [insertIssue, stableSort, insertSorted]

/-- Witness for the amended C4 at a concrete well-formed line. -/
theorem c4_amended_rule_optional_witness :
    ((("app".data : List Char) ≠ [] ∧ (∀ c ∈ ("app".data : List Char), c ≠ ':') ∧
      (∀ c ∈ ("app".data : List Char), isLineBreak c = false) ∧
      ("7".data : List Char) ≠ [] ∧ (∀ c ∈ ("7".data : List Char), c.isDigit = true) ∧
      ("2".data : List Char) ≠ [] ∧ (∀ c ∈ ("2".data : List Char), c.isDigit = true) ∧
      ('E' : Char).isAlpha = true ∧
      (∀ c ∈ ("rror".data : List Char), c.isAlpha = true) ∧
      '(' ∉ ("bad".data : List Char) ∧
      (∀ c ∈ ("bad".data : List Char), isLineBreak c = false) ∧
      isSummaryLine ("app".data ++ ':' :: ("7".data ++ ':' :: ("2".data ++ ':' :: ' ' ::
        (('E' :: "rror".data) ++ ' ' :: '-' :: ' ' :: "bad".data)))) = false)) ∧
    parse_tflint_output (String.mk ("app".data ++ ':' :: ("7".data ++ ':' ::
        ("2".data ++ ':' :: ' ' ::
          (('E' :: "rror".data) ++ ' ' :: '-' :: ' ' :: "bad".data))))) =
      [(String.mk (pyStripList "app".data),
        [{ line := digitsToNat "7".data, col := digitsToNat "2".data,
           level := String.mk (('E' :: "rror".data).map Char.toLower),
           rule := "", msg := String.mk (pyStripList "bad".data) }])] :=
  ⟨⟨by decide, by decide, by decide, by decide, by decide, by decide,
    by decide, by decide, by decide, by decide, by decide, by decide⟩,
    c4_amended_rule_optional.2 "app".data "7".data "2".data "rror".data
      "bad".data 'E' (by decide) (by decide) (by decide) (by decide)
      (by decide) (by decide) (by decide) (by decide) (by decide)
      (by decide) (by decide) (by decide)⟩

/-! ## C8 -/

set_option maxRecDepth 40000 in
/-- C8: demonstration of the escaping bug at the failing input.  The
lint line `a<b.tf:1:2: Error - boom` parses to an issue in file
`a<b.tf`; with a commit SHA present, the rendered details HTML embeds
the file path raw (unescaped) inside the line-link URL attribute,
although the escaped form exists and the per-file summary uses it. -/
theorem c8_href_embeds_raw_path :
    containsSub
      (build_details_html exLintEnvSha
        (parse_tflint_output exLintEnvSha.tflintOutput)
        "https://u") "/blob/deadbeef/a<b.tf#L1" = true ∧
    escape "a<b.tf" = "a&lt;b.tf" ∧
    containsSub
      (fileHeaderPart "a<b.tf"
        [{ line := 1, col := 2, level := "error", rule := "", msg := "boom" }])
      "a<b.tf" = false := by
  refine ⟨by decide, by decide, by decide⟩

/-! ## C2: counting machinery -/

theorem countSubList_nil_of_ne (p : List Char) (hp : p ≠ []) :
    countSubList [] p = 0 := by
  rw [countSubList]
  cases p with
  | nil => exact absurd rfl hp
  | cons a t => rfl

theorem prefix_append_iff_of_le {p x : List Char} (y : List Char)
    (h : p.length ≤ x.length) : p <+: x ++ y ↔ p <+: x := by
  constructor
  · intro hp
    have ht : p = (x ++ y).take p.length := by
      rcases hp with ⟨t, ht⟩
      rw [← ht]
      simp
    rw [List.take_append_of_le_length h] at ht
    rw [ht]
    exact List.take_prefix _ _
  · intro hp
    exact hp.trans (List.prefix_append x y)

theorem prefix_of_prefix_append {p x : List Char} (y : List Char)
    (h : x.length < p.length) (hp : p <+: x ++ y) : x <+: p := by
  rcases hp with ⟨t, ht⟩
  have h2 : (p ++ t).take x.length = x := by
    rw [ht, List.take_append_of_le_length (le_refl _)]
    simp
  rw [List.take_append_of_le_length (Nat.le_of_lt h)] at h2
  rw [← h2]
  exact List.take_prefix _ _

theorem noSpanB_of_tail {a : Char} {t p : List Char}
    (h : noSpanB (a :: t) p = true) : noSpanB t p = true := by
  unfold noSpanB at h ⊢
  rw [List.all_eq_true] at h ⊢
  intro s hs
  exact h s (by rw [List.tails_cons]; exact List.mem_cons_of_mem _ hs)

theorem noSpanB_self {l p : List Char} (h : noSpanB l p = true)
    (hne : l ≠ []) (hlt : l.length < p.length) :
    l.isPrefixOf p = false := by
  unfold noSpanB at h
  rw [List.all_eq_true] at h
  have hx := h l ((List.mem_tails _ _).2 (List.suffix_refl l))
  by_contra hcon
  rw [Bool.not_eq_false] at hcon
  rw [hcon] at hx
  simp at hx
  rcases hx with h1 | h2
  · exact hne h1
  · omega

theorem countSubList_append (l r p : List Char) (hp : p ≠ [])
    (h : noSpanB l p = true) :
    countSubList (l ++ r) p = countSubList l p + countSubList r p := by
  induction l with
  | nil =>
    rw [List.nil_append, countSubList_nil_of_ne p hp]
    omega
  | cons a t ih =>
    have htail : countSubList (t ++ r) p = countSubList t p + countSubList r p :=
      ih (noSpanB_of_tail h)
    have hpref : p.isPrefixOf (a :: (t ++ r)) = p.isPrefixOf (a :: t) := by
      by_cases hl : p.length ≤ (a :: t).length
      · rw [Bool.eq_iff_iff, List.isPrefixOf_iff_prefix,
          List.isPrefixOf_iff_prefix]
        exact prefix_append_iff_of_le r hl
      · push_neg at hl
        have h1 : (a :: t).isPrefixOf p = false := noSpanB_self h (by simp) hl
        have h2 : p.isPrefixOf (a :: t) = false := by
          rw [← Bool.not_eq_true, List.isPrefixOf_iff_prefix]
          intro hc
          have hlen := hc.length_le
          simp at hlen
          simp at hl
          omega
        rw [h2, ← Bool.not_eq_true, List.isPrefixOf_iff_prefix]
        intro hc
        have hxp : (a :: t) <+: p := prefix_of_prefix_append r hl hc
        rw [← List.isPrefixOf_iff_prefix] at hxp
        simp [h1] at hxp
    rw [List.cons_append, countSubList]
    conv_rhs => rw [countSubList]
    rw [hpref, htail]
    by_cases hpp : p.isPrefixOf (a :: t) = true
    · simp [hpp]
      omega
    · rw [Bool.not_eq_true] at hpp
      simp [hpp]

theorem countSubList_clean_append (s r p' : List Char)
    (h : ∀ c ∈ s, c ≠ '<') :
    countSubList (s ++ r) ('<' :: p') = countSubList r ('<' :: p') := by
  induction s with
  | nil => rfl
  | cons a t ih =>
    rw [List.cons_append, countSubList]
    have ha : ('<' :: p').isPrefixOf (a :: (t ++ r)) = false := by
      have : ¬ (a = '<') := fun he => (h a (by simp)) (by rw [he])
      simp [List.isPrefixOf]
      intro hc
      exact absurd hc.symm this
    rw [ha]
    simp only [if_false, Bool.false_eq_true]
    rw [ih (fun c hc => h c (by simp [hc]))]
    simp

theorem chunksData_cons (c : Chunk) (cs : List Chunk) :
    chunksData (c :: cs) = c.str.data ++ chunksData cs := rfl

theorem countSub_chunks (p' : List Char) (cs : List Chunk)
    (hlit : ∀ s, Chunk.lit s ∈ cs → noSpanB s.data ('<' :: p') = true)
    (hvar : ∀ s, Chunk.var s ∈ cs → ∀ c ∈ s.data, c ≠ '<') :
    countSubList (chunksData cs) ('<' :: p') =
      (cs.map (chunkLitCount ('<' :: p'))).sum := by
  induction cs with
  | nil => rfl
  | cons ch rest ih =>
    rw [chunksData_cons, List.map_cons, List.sum_cons]
    have ihr := ih (fun s hs => hlit s (List.mem_cons_of_mem _ hs))
      (fun s hs => hvar s (List.mem_cons_of_mem _ hs))
    cases ch with
    | lit s =>
      rw [show (Chunk.lit s).str = s from rfl,
        countSubList_append _ _ _ (by simp) (hlit s (List.mem_cons_self _ _)),
        ihr]
      simp [chunkLitCount]
    | var s =>
      rw [show (Chunk.var s).str = s from rfl,
        countSubList_clean_append _ _ _ (hvar s (List.mem_cons_self _ _)), ihr]
      simp [chunkLitCount]

/-! ## C2: cleanliness of interpolated values -/

theorem escapeChar_no_lt (c : Char) : ∀ x ∈ escapeChar c, x ≠ '<' := by
  unfold escapeChar
  by_cases h1 : c = '&'
  · rw [if_pos h1]; decide
  · rw [if_neg h1]
    by_cases h2 : c = '<'
    · rw [if_pos h2]; decide
    · rw [if_neg h2]
      by_cases h3 : c = '>'
      · rw [if_pos h3]; decide
      · rw [if_neg h3]
        by_cases h4 : c = Char.ofNat 34
        · rw [if_pos h4]; decide
        · rw [if_neg h4]
          by_cases h5 : c = Char.ofNat 39
          · rw [if_pos h5]; decide
          · rw [if_neg h5]
            intro x hx
            have hxc := List.mem_singleton.1 hx
            rw [hxc]
            exact h2

theorem escapeList_no_lt (l : List Char) : ∀ c ∈ escapeList l, c ≠ '<' := by
  induction l with
  | nil => simp [escapeList]
  | cons a t ih =>
    intro c hc
    rw [escapeList] at hc
    rcases List.mem_append.1 hc with h | h
    · exact escapeChar_no_lt a c h
    · exact ih c h

theorem escape_no_lt (s : String) : ∀ c ∈ (escape s).data, c ≠ '<' :=
  escapeList_no_lt s.data

theorem natDigits_no_lt (fuel : Nat) : ∀ (n : Nat) (acc : List Char),
    (∀ c ∈ acc, c ≠ '<') → ∀ c ∈ natDigits fuel n acc, c ≠ '<' := by
  induction fuel with
  | zero => intro n acc hacc c hc; exact hacc c hc
  | succ fuel ih =>
    intro n acc hacc
    rw [natDigits]
    have hd : Char.ofNat (48 + n % 10) ≠ '<' := by
      have h10 : n % 10 < 10 := Nat.mod_lt _ (by omega)
      set k := n % 10 with hk
      interval_cases k <;> decide
    have hacc2 : ∀ c ∈ Char.ofNat (48 + n % 10) :: acc, c ≠ '<' := by
      intro c hc
      rcases List.mem_cons.1 hc with rfl | h
      · exact hd
      · exact hacc c h
    by_cases hq : n / 10 = 0
    · rw [if_pos hq]
      exact hacc2
    · rw [if_neg hq]
      exact ih (n / 10) _ hacc2

theorem natStr_no_lt (n : Nat) : ∀ c ∈ (natStr n).data, c ≠ '<' :=
  natDigits_no_lt (n + 1) n [] (by simp)

theorem sevEmoji_no_lt (s : String) : ∀ c ∈ (sevEmoji s).data, c ≠ '<' := by
  unfold sevEmoji
  split_ifs <;> decide

/-! ## C2: part classification -/

theorem isDataRow_rowPart (env : LintEnv) (fp : String) (i : LintIssue) :
    isDataRow (rowPart env fp i) = true := rfl

theorem isDataRow_header (fp : String) (fIssues : List LintIssue) :
    isDataRow (fileHeaderPart fp fIssues) = false := rfl

theorem isDataRow_notice (url : String) :
    isDataRow (noticePart url) = false := rfl

theorem isTruncNotice_noticePart (url : String) :
    isTruncNotice (noticePart url) = true := rfl

theorem isTruncNotice_rowPart (env : LintEnv) (fp : String) (i : LintIssue) :
    isTruncNotice (rowPart env fp i) = false := rfl

theorem isTruncNotice_header (fp : String) (fIssues : List LintIssue) :
    isTruncNotice (fileHeaderPart fp fIssues) = false := rfl

/-! ## C2: the row loop invariant -/

theorem renderRows_spec (env : LintEnv) (fp : String)
    (issues : List LintIssue) :
    ∀ rc : Nat, rc ≤ maxRows →
    (renderRows env fp issues rc).1.length =
        min issues.length (maxRows - rc) ∧
    (renderRows env fp issues rc).2.1 =
        rc + min issues.length (maxRows - rc) ∧
    (renderRows env fp issues rc).2.2 =
        decide (issues.length > maxRows - rc) ∧
    (∀ part ∈ (renderRows env fp issues rc).1,
      ∃ i, part = rowPart env fp i) := by
  induction issues with
  | nil =>
    intro rc hrc
    have h0 : ¬ ((0 : Nat) > maxRows - rc) := by omega
    refine ⟨by simp [renderRows], by simp [renderRows], ?_,
      by simp [renderRows]⟩
    simp [renderRows, h0]
  | cons i rest ih =>
    intro rc hrc
    rw [renderRows]
    by_cases h : rc ≥ maxRows
    · rw [if_pos h]
      have hrc0 : maxRows - rc = 0 := by omega
      refine ⟨by simp [hrc0], by simp [hrc0], ?_, by simp⟩
      simp [hrc0]
    · rw [if_neg h]
      obtain ⟨ih1, ih2, ih3, ih4⟩ := ih (rc + 1) (by omega)
      refine ⟨?_, ?_, ?_, ?_⟩
      · show (rowPart env fp i :: (renderRows env fp rest (rc + 1)).1).length = _
        rw [List.length_cons, ih1]
        simp only [List.length_cons]
        omega
      · show (renderRows env fp rest (rc + 1)).2.1 = _
        rw [ih2]
        simp only [List.length_cons]
        omega
      · show (renderRows env fp rest (rc + 1)).2.2 = _
        rw [ih3, decide_eq_decide]
        simp only [List.length_cons]
        omega
      · intro part hp
        have hp2 : part = rowPart env fp i ∨
            part ∈ (renderRows env fp rest (rc + 1)).1 :=
          List.mem_cons.1 hp
        rcases hp2 with rfl | hp3
        · exact ⟨i, rfl⟩
        · exact ih4 part hp3

/-! ## C2: per-part tag counts -/

theorem rowChunks_vars_clean (env : LintEnv) (fp : String) (i : LintIssue)
    (hsha : noLt env.ghSha) (hown : noLt env.ownerForUrl)
    (hrep : noLt env.repoName) (hfp : noLt fp) :
    ∀ s, Chunk.var s ∈ rowChunks env fp i → ∀ c ∈ s.data, c ≠ '<' := by
  intro s hs
  unfold rowChunks lineCellChunks at hs
  by_cases h0 : env.ghSha = ""
  · rw [if_pos h0] at hs
    simp at hs
    rcases hs with rfl | rfl | rfl | rfl | rfl | rfl
    · exact natStr_no_lt _
    · exact natStr_no_lt _
    · exact sevEmoji_no_lt _
    · exact escape_no_lt _
    · exact escape_no_lt _
    · exact escape_no_lt _
  · rw [if_neg h0] at hs
    simp at hs
    rcases hs with rfl | rfl | rfl | rfl | rfl | rfl | rfl | rfl | rfl | rfl
    · exact hown
    · exact hrep
    · exact hsha
    · exact hfp
    · exact natStr_no_lt _
    · exact natStr_no_lt _
    · exact sevEmoji_no_lt _
    · exact escape_no_lt _
    · exact escape_no_lt _
    · exact escape_no_lt _

theorem rowChunks_lits_noSpan (env : LintEnv) (fp : String) (i : LintIssue) :
    ∀ s, Chunk.lit s ∈ rowChunks env fp i → ∀ tag ∈ blockTags,
      noSpanB s.data (openTag tag).data = true ∧
      noSpanB s.data (closeTag tag).data = true := by
  intro s hs
  unfold rowChunks lineCellChunks at hs
  by_cases h0 : env.ghSha = ""
  · rw [if_pos h0] at hs
    simp at hs
    rcases hs with rfl|rfl|rfl|rfl|rfl|rfl|rfl|rfl|rfl|rfl|rfl|rfl|rfl <;> decide
  · rw [if_neg h0] at hs
    simp at hs
    rcases hs with
      rfl|rfl|rfl|rfl|rfl|rfl|rfl|rfl|rfl|rfl|rfl|rfl|rfl|rfl|rfl|rfl|rfl|rfl|rfl|rfl <;>
      decide

theorem fileHeaderChunks_lits_noSpan (fp : String) (fIssues : List LintIssue) :
    ∀ s, Chunk.lit s ∈ fileHeaderChunks fp fIssues → ∀ tag ∈ blockTags,
      noSpanB s.data (openTag tag).data = true ∧
      noSpanB s.data (closeTag tag).data = true := by
  intro s hs
  simp [fileHeaderChunks] at hs
  rcases hs with rfl|rfl|rfl <;> decide

theorem noticeChunks_lits_noSpan (url : String) :
    ∀ s, Chunk.lit s ∈ noticeChunks url → ∀ tag ∈ blockTags,
      noSpanB s.data (openTag tag).data = true ∧
      noSpanB s.data (closeTag tag).data = true := by
  intro s hs
  simp [noticeChunks] at hs
  rcases hs with rfl|rfl|rfl <;> decide

theorem row_count_pat (env : LintEnv) (fp : String) (i : LintIssue)
    (hsha : noLt env.ghSha) (hown : noLt env.ownerForUrl)
    (hrep : noLt env.repoName) (hfp : noLt fp) (p : List Char)
    (hlit : ∀ s, Chunk.lit s ∈ rowChunks env fp i →
      noSpanB s.data ('<' :: p) = true) :
    countSubList (rowPart env fp i).data ('<' :: p) =
      ((rowChunks env fp i).map (chunkLitCount ('<' :: p))).sum :=
  countSub_chunks p _ hlit (rowChunks_vars_clean env fp i hsha hown hrep hfp)

theorem header_count_pat (fp : String) (fIssues : List LintIssue)
    (p : List Char)
    (hlit : ∀ s, Chunk.lit s ∈ fileHeaderChunks fp fIssues →
      noSpanB s.data ('<' :: p) = true) :
    countSubList (fileHeaderPart fp fIssues).data ('<' :: p) =
      ((fileHeaderChunks fp fIssues).map (chunkLitCount ('<' :: p))).sum := by
  refine countSub_chunks p _ hlit ?_
  intro s hs
  simp [fileHeaderChunks] at hs
  rcases hs with rfl | rfl
  · exact escape_no_lt _
  · exact natStr_no_lt _

theorem notice_count_pat (url : String) (hurl : noLt url) (p : List Char)
    (hlit : ∀ s, Chunk.lit s ∈ noticeChunks url →
      noSpanB s.data ('<' :: p) = true) :
    countSubList (noticePart url).data ('<' :: p) =
      ((noticeChunks url).map (chunkLitCount ('<' :: p))).sum := by
  refine countSub_chunks p _ hlit ?_
  intro s hs
  simp [noticeChunks] at hs
  rcases hs with rfl | rfl
  · exact natStr_no_lt _
  · exact hurl

theorem rowPart_tag_balance (env : LintEnv) (fp : String) (i : LintIssue)
    (hsha : noLt env.ghSha) (hown : noLt env.ownerForUrl)
    (hrep : noLt env.repoName) (hfp : noLt fp) :
    ∀ tag ∈ blockTags,
      countSub (rowPart env fp i) (openTag tag) =
        countSub (rowPart env fp i) (closeTag tag) := by
  have hl := rowChunks_lits_noSpan env fp i
  intro tag htag
  fin_cases htag

  · rw [show countSub (rowPart env fp i) (openTag "details") =
        countSubList (rowPart env fp i).data ('<' :: "details>".data) from rfl,
      show countSub (rowPart env fp i) (closeTag "details") =
        countSubList (rowPart env fp i).data ('<' :: "/details>".data) from rfl,
      row_count_pat env fp i hsha hown hrep hfp "details>".data
        (fun s hs => (hl s hs "details" (by decide)).1),
      row_count_pat env fp i hsha hown hrep hfp "/details>".data
        (fun s hs => (hl s hs "details" (by decide)).2)]
    simp only [rowChunks, lineCellChunks]
    by_cases h0 : env.ghSha = ""
    · rw [if_pos h0]
      simp only [List.map_append, List.map_cons, List.map_nil,
        List.sum_append, List.sum_cons, List.sum_nil, chunkLitCount]
      decide
    · rw [if_neg h0]
      simp only [List.map_append, List.map_cons, List.map_nil,
        List.sum_append, List.sum_cons, List.sum_nil, chunkLitCount]
      decide

  · rw [show countSub (rowPart env fp i) (openTag "table") =
        countSubList (rowPart env fp i).data ('<' :: "table>".data) from rfl,
      show countSub (rowPart env fp i) (closeTag "table") =
        countSubList (rowPart env fp i).data ('<' :: "/table>".data) from rfl,
      row_count_pat env fp i hsha hown hrep hfp "table>".data
        (fun s hs => (hl s hs "table" (by decide)).1),
      row_count_pat env fp i hsha hown hrep hfp "/table>".data
        (fun s hs => (hl s hs "table" (by decide)).2)]
    simp only [rowChunks, lineCellChunks]
    by_cases h0 : env.ghSha = ""
    · rw [if_pos h0]
      simp only [List.map_append, List.map_cons, List.map_nil,
        List.sum_append, List.sum_cons, List.sum_nil, chunkLitCount]
      decide
    · rw [if_neg h0]
      simp only [List.map_append, List.map_cons, List.map_nil,
        List.sum_append, List.sum_cons, List.sum_nil, chunkLitCount]
      decide

  · rw [show countSub (rowPart env fp i) (openTag "thead") =
        countSubList (rowPart env fp i).data ('<' :: "thead>".data) from rfl,
      show countSub (rowPart env fp i) (closeTag "thead") =
        countSubList (rowPart env fp i).data ('<' :: "/thead>".data) from rfl,
      row_count_pat env fp i hsha hown hrep hfp "thead>".data
        (fun s hs => (hl s hs "thead" (by decide)).1),
      row_count_pat env fp i hsha hown hrep hfp "/thead>".data
        (fun s hs => (hl s hs "thead" (by decide)).2)]
    simp only [rowChunks, lineCellChunks]
    by_cases h0 : env.ghSha = ""
    · rw [if_pos h0]
      simp only [List.map_append, List.map_cons, List.map_nil,
        List.sum_append, List.sum_cons, List.sum_nil, chunkLitCount]
      decide
    · rw [if_neg h0]
      simp only [List.map_append, List.map_cons, List.map_nil,
        List.sum_append, List.sum_cons, List.sum_nil, chunkLitCount]
      decide

  · rw [show countSub (rowPart env fp i) (openTag "tbody") =
        countSubList (rowPart env fp i).data ('<' :: "tbody>".data) from rfl,
      show countSub (rowPart env fp i) (closeTag "tbody") =
        countSubList (rowPart env fp i).data ('<' :: "/tbody>".data) from rfl,
      row_count_pat env fp i hsha hown hrep hfp "tbody>".data
        (fun s hs => (hl s hs "tbody" (by decide)).1),
      row_count_pat env fp i hsha hown hrep hfp "/tbody>".data
        (fun s hs => (hl s hs "tbody" (by decide)).2)]
    simp only [rowChunks, lineCellChunks]
    by_cases h0 : env.ghSha = ""
    · rw [if_pos h0]
      simp only [List.map_append, List.map_cons, List.map_nil,
        List.sum_append, List.sum_cons, List.sum_nil, chunkLitCount]
      decide
    · rw [if_neg h0]
      simp only [List.map_append, List.map_cons, List.map_nil,
        List.sum_append, List.sum_cons, List.sum_nil, chunkLitCount]
      decide

  · rw [show countSub (rowPart env fp i) (openTag "tr") =
        countSubList (rowPart env fp i).data ('<' :: "tr>".data) from rfl,
      show countSub (rowPart env fp i) (closeTag "tr") =
        countSubList (rowPart env fp i).data ('<' :: "/tr>".data) from rfl,
      row_count_pat env fp i hsha hown hrep hfp "tr>".data
        (fun s hs => (hl s hs "tr" (by decide)).1),
      row_count_pat env fp i hsha hown hrep hfp "/tr>".data
        (fun s hs => (hl s hs "tr" (by decide)).2)]
    simp only [rowChunks, lineCellChunks]
    by_cases h0 : env.ghSha = ""
    · rw [if_pos h0]
      simp only [List.map_append, List.map_cons, List.map_nil,
        List.sum_append, List.sum_cons, List.sum_nil, chunkLitCount]
      decide
    · rw [if_neg h0]
      simp only [List.map_append, List.map_cons, List.map_nil,
        List.sum_append, List.sum_cons, List.sum_nil, chunkLitCount]
      decide

set_option maxRecDepth 40000 in
theorem fileBlock_tag_counts (fp : String) (fIssues : List LintIssue) :
    ∀ tag ∈ blockTags,
      countSub (fileHeaderPart fp fIssues) (openTag tag) +
        (countSub theadPart (openTag tag) +
          countSub tableClosePart (openTag tag)) =
      countSub (fileHeaderPart fp fIssues) (closeTag tag) +
        (countSub theadPart (closeTag tag) +
          countSub tableClosePart (closeTag tag)) := by
  have hl := fileHeaderChunks_lits_noSpan fp fIssues
  intro tag htag
  fin_cases htag

  · rw [show countSub (fileHeaderPart fp fIssues) (openTag "details") =
        countSubList (fileHeaderPart fp fIssues).data ('<' :: "details>".data) from rfl,
      show countSub (fileHeaderPart fp fIssues) (closeTag "details") =
        countSubList (fileHeaderPart fp fIssues).data ('<' :: "/details>".data) from rfl,
      header_count_pat fp fIssues "details>".data
        (fun s hs => (hl s hs "details" (by decide)).1),
      header_count_pat fp fIssues "/details>".data
        (fun s hs => (hl s hs "details" (by decide)).2)]
    simp only [fileHeaderChunks, List.map_cons, List.map_nil,
      List.sum_cons, List.sum_nil, chunkLitCount]
    decide

  · rw [show countSub (fileHeaderPart fp fIssues) (openTag "table") =
        countSubList (fileHeaderPart fp fIssues).data ('<' :: "table>".data) from rfl,
      show countSub (fileHeaderPart fp fIssues) (closeTag "table") =
        countSubList (fileHeaderPart fp fIssues).data ('<' :: "/table>".data) from rfl,
      header_count_pat fp fIssues "table>".data
        (fun s hs => (hl s hs "table" (by decide)).1),
      header_count_pat fp fIssues "/table>".data
        (fun s hs => (hl s hs "table" (by decide)).2)]
    simp only [fileHeaderChunks, List.map_cons, List.map_nil,
      List.sum_cons, List.sum_nil, chunkLitCount]
    decide

  · rw [show countSub (fileHeaderPart fp fIssues) (openTag "thead") =
        countSubList (fileHeaderPart fp fIssues).data ('<' :: "thead>".data) from rfl,
      show countSub (fileHeaderPart fp fIssues) (closeTag "thead") =
        countSubList (fileHeaderPart fp fIssues).data ('<' :: "/thead>".data) from rfl,
      header_count_pat fp fIssues "thead>".data
        (fun s hs => (hl s hs "thead" (by decide)).1),
      header_count_pat fp fIssues "/thead>".data
        (fun s hs => (hl s hs "thead" (by decide)).2)]
    simp only [fileHeaderChunks, List.map_cons, List.map_nil,
      List.sum_cons, List.sum_nil, chunkLitCount]
    decide

  · rw [show countSub (fileHeaderPart fp fIssues) (openTag "tbody") =
        countSubList (fileHeaderPart fp fIssues).data ('<' :: "tbody>".data) from rfl,
      show countSub (fileHeaderPart fp fIssues) (closeTag "tbody") =
        countSubList (fileHeaderPart fp fIssues).data ('<' :: "/tbody>".data) from rfl,
      header_count_pat fp fIssues "tbody>".data
        (fun s hs => (hl s hs "tbody" (by decide)).1),
      header_count_pat fp fIssues "/tbody>".data
        (fun s hs => (hl s hs "tbody" (by decide)).2)]
    simp only [fileHeaderChunks, List.map_cons, List.map_nil,
      List.sum_cons, List.sum_nil, chunkLitCount]
    decide

  · rw [show countSub (fileHeaderPart fp fIssues) (openTag "tr") =
        countSubList (fileHeaderPart fp fIssues).data ('<' :: "tr>".data) from rfl,
      show countSub (fileHeaderPart fp fIssues) (closeTag "tr") =
        countSubList (fileHeaderPart fp fIssues).data ('<' :: "/tr>".data) from rfl,
      header_count_pat fp fIssues "tr>".data
        (fun s hs => (hl s hs "tr" (by decide)).1),
      header_count_pat fp fIssues "/tr>".data
        (fun s hs => (hl s hs "tr" (by decide)).2)]
    simp only [fileHeaderChunks, List.map_cons, List.map_nil,
      List.sum_cons, List.sum_nil, chunkLitCount]
    decide

set_option maxRecDepth 40000 in
theorem noticePart_tag_counts (url : String) (hurl : noLt url) :
    ∀ tag ∈ blockTags,
      countSub (noticePart url) (openTag tag) = 0 ∧
      countSub (noticePart url) (closeTag tag) = 0 := by
  have hl := noticeChunks_lits_noSpan url
  intro tag htag
  fin_cases htag

  · refine ⟨?_, ?_⟩
    · rw [show countSub (noticePart url) (openTag "details") =
          countSubList (noticePart url).data ('<' :: "details>".data) from rfl,
        notice_count_pat url hurl "details>".data
          (fun s hs => (hl s hs "details" (by decide)).1)]
      simp only [noticeChunks, List.map_cons, List.map_nil,
        List.sum_cons, List.sum_nil, chunkLitCount]
      decide
    · rw [show countSub (noticePart url) (closeTag "details") =
          countSubList (noticePart url).data ('<' :: "/details>".data) from rfl,
        notice_count_pat url hurl "/details>".data
          (fun s hs => (hl s hs "details" (by decide)).2)]
      simp only [noticeChunks, List.map_cons, List.map_nil,
        List.sum_cons, List.sum_nil, chunkLitCount]
      decide

  · refine ⟨?_, ?_⟩
    · rw [show countSub (noticePart url) (openTag "table") =
          countSubList (noticePart url).data ('<' :: "table>".data) from rfl,
        notice_count_pat url hurl "table>".data
          (fun s hs => (hl s hs "table" (by decide)).1)]
      simp only [noticeChunks, List.map_cons, List.map_nil,
        List.sum_cons, List.sum_nil, chunkLitCount]
      decide
    · rw [show countSub (noticePart url) (closeTag "table") =
          countSubList (noticePart url).data ('<' :: "/table>".data) from rfl,
        notice_count_pat url hurl "/table>".data
          (fun s hs => (hl s hs "table" (by decide)).2)]
      simp only [noticeChunks, List.map_cons, List.map_nil,
        List.sum_cons, List.sum_nil, chunkLitCount]
      decide

  · refine ⟨?_, ?_⟩
    · rw [show countSub (noticePart url) (openTag "thead") =
          countSubList (noticePart url).data ('<' :: "thead>".data) from rfl,
        notice_count_pat url hurl "thead>".data
          (fun s hs => (hl s hs "thead" (by decide)).1)]
      simp only [noticeChunks, List.map_cons, List.map_nil,
        List.sum_cons, List.sum_nil, chunkLitCount]
      decide
    · rw [show countSub (noticePart url) (closeTag "thead") =
          countSubList (noticePart url).data ('<' :: "/thead>".data) from rfl,
        notice_count_pat url hurl "/thead>".data
          (fun s hs => (hl s hs "thead" (by decide)).2)]
      simp only [noticeChunks, List.map_cons, List.map_nil,
        List.sum_cons, List.sum_nil, chunkLitCount]
      decide

  · refine ⟨?_, ?_⟩
    · rw [show countSub (noticePart url) (openTag "tbody") =
          countSubList (noticePart url).data ('<' :: "tbody>".data) from rfl,
        notice_count_pat url hurl "tbody>".data
          (fun s hs => (hl s hs "tbody" (by decide)).1)]
      simp only [noticeChunks, List.map_cons, List.map_nil,
        List.sum_cons, List.sum_nil, chunkLitCount]
      decide
    · rw [show countSub (noticePart url) (closeTag "tbody") =
          countSubList (noticePart url).data ('<' :: "/tbody>".data) from rfl,
        notice_count_pat url hurl "/tbody>".data
          (fun s hs => (hl s hs "tbody" (by decide)).2)]
      simp only [noticeChunks, List.map_cons, List.map_nil,
        List.sum_cons, List.sum_nil, chunkLitCount]
      decide

  · refine ⟨?_, ?_⟩
    · rw [show countSub (noticePart url) (openTag "tr") =
          countSubList (noticePart url).data ('<' :: "tr>".data) from rfl,
        notice_count_pat url hurl "tr>".data
          (fun s hs => (hl s hs "tr" (by decide)).1)]
      simp only [noticeChunks, List.map_cons, List.map_nil,
        List.sum_cons, List.sum_nil, chunkLitCount]
      decide
    · rw [show countSub (noticePart url) (closeTag "tr") =
          countSubList (noticePart url).data ('<' :: "/tr>".data) from rfl,
        notice_count_pat url hurl "/tr>".data
          (fun s hs => (hl s hs "tr" (by decide)).2)]
      simp only [noticeChunks, List.map_cons, List.map_nil,
        List.sum_cons, List.sum_nil, chunkLitCount]
      decide

theorem renderFiles_cons (env : LintEnv) (fp : String)
    (fIssues : List LintIssue) (rest : List (String × List LintIssue))
    (rc : Nat) :
    renderFiles env ((fp, fIssues) :: rest) rc =
      if (renderRows env fp fIssues rc).2.2 then
        (fileHeaderPart fp fIssues :: theadPart ::
          (renderRows env fp fIssues rc).1 ++ [tableClosePart], true)
      else
        ((fileHeaderPart fp fIssues :: theadPart ::
            (renderRows env fp fIssues rc).1 ++ [tableClosePart]) ++
            (renderFiles env rest (renderRows env fp fIssues rc).2.1).1,
          (renderFiles env rest (renderRows env fp fIssues rc).2.1).2) := by
  rw [renderFiles]

/-- The outer file loop of `build_details_html`: at most
`maxRows - rc` further data rows are emitted, the truncation flag is
set exactly when the remaining issues exceed that budget, the loop
itself emits no truncation notice, and every HTML block tag opened is
closed provided the interpolated strings contain no `'<'`. -/
theorem renderFiles_spec (env : LintEnv)
    (hsha : noLt env.ghSha) (hown : noLt env.ownerForUrl)
    (hrep : noLt env.repoName) :
    ∀ (files : List (String × List LintIssue)) (rc : Nat), rc ≤ maxRows →
    (∀ p ∈ files, p.2 ≠ []) → (∀ p ∈ files, noLt p.1) →
    dataRowCount (renderFiles env files rc).1 =
        min (totalIssues files) (maxRows - rc) ∧
    (renderFiles env files rc).2 =
        decide (totalIssues files > maxRows - rc) ∧
    truncNoticeCount (renderFiles env files rc).1 = 0 ∧
    ∀ tag ∈ blockTags,
      tagOpens (renderFiles env files rc).1 tag =
        tagCloses (renderFiles env files rc).1 tag := by
  intro files
  induction files with
  | nil =>
    intro rc hrc _ _
    have h0 : ¬ ((0 : Nat) > maxRows - rc) := by omega
    refine ⟨?_, ?_, ?_, ?_⟩
    · simp [renderFiles, dataRowCount, totalIssues]
    · simp [renderFiles, totalIssues, h0]
    · simp [renderFiles, truncNoticeCount]
    · intro tag _
      simp [renderFiles, tagOpens, tagCloses]
  | cons pf rest ih =>
    obtain ⟨fp, fIssues⟩ := pf
    intro rc hrc hne hclean
    have hfne : fIssues ≠ [] := hne (fp, fIssues) (List.mem_cons_self _ _)
    have hfcl : noLt fp := hclean (fp, fIssues) (List.mem_cons_self _ _)
    have hflen : 0 < fIssues.length := List.length_pos.2 hfne
    obtain ⟨hr1, hr2, hr3, hr4⟩ := renderRows_spec env fp fIssues rc hrc
    have htot : totalIssues ((fp, fIssues) :: rest) =
        fIssues.length + totalIssues rest := by
      simp [totalIssues]
    have hth : isDataRow theadPart = false := rfl
    have htc : isDataRow tableClosePart = false := rfl
    have hth2 : isTruncNotice theadPart = false := rfl
    have htc2 : isTruncNotice tableClosePart = false := rfl
    have hcnt : List.countP isDataRow (renderRows env fp fIssues rc).1 =
        (renderRows env fp fIssues rc).1.length :=
      List.countP_eq_length.2 (by
        intro a ha
        obtain ⟨i, rfl⟩ := hr4 a ha
        exact isDataRow_rowPart env fp i)
    have hcnt0 : List.countP isTruncNotice (renderRows env fp fIssues rc).1 =
        0 :=
      List.countP_eq_zero.2 (by
        intro a ha
        obtain ⟨i, rfl⟩ := hr4 a ha
        simp [isTruncNotice_rowPart env fp i])
    by_cases htr : fIssues.length > maxRows - rc
    · have htrue : (renderRows env fp fIssues rc).2.2 = true := by
        rw [hr3]
        simpa using htr
      rw [renderFiles_cons, if_pos htrue]
      refine ⟨?_, ?_, ?_, ?_⟩
      · simp [dataRowCount, List.countP_append, List.countP_cons,
          isDataRow_header, hth, htc, hcnt]
        rw [hr1, htot]
        omega
      · show true = _
        symm
        rw [decide_eq_true_eq]
        omega
      · simp [truncNoticeCount, List.countP_append, List.countP_cons,
          isTruncNotice_header, hth2, htc2, hcnt0]
      · intro tag htag
        have hblk := fileBlock_tag_counts fp fIssues tag htag
        have hmap : (renderRows env fp fIssues rc).1.map
              (fun p => countSub p (openTag tag)) =
            (renderRows env fp fIssues rc).1.map
              (fun p => countSub p (closeTag tag)) :=
          List.map_congr_left (by
            intro a ha
            obtain ⟨i, rfl⟩ := hr4 a ha
            exact rowPart_tag_balance env fp i hsha hown hrep hfcl tag htag)
        simp only [tagOpens, tagCloses, List.map_append, List.map_cons,
          List.map_nil, List.sum_append, List.sum_cons, List.sum_nil]
        rw [hmap]
        omega
    · have hfalse : (renderRows env fp fIssues rc).2.2 = false := by
        rw [hr3]
        simpa using htr
      rw [renderFiles_cons, if_neg (by simp [hfalse])]
      obtain ⟨ih1, ih2, ih3, ih4⟩ := ih (renderRows env fp fIssues rc).2.1
        (by rw [hr2]; omega)
        (fun p hp => hne p (List.mem_cons_of_mem _ hp))
        (fun p hp => hclean p (List.mem_cons_of_mem _ hp))
      refine ⟨?_, ?_, ?_, ?_⟩
      · rw [dataRowCount] at ih1
        simp [dataRowCount, List.countP_append, List.countP_cons,
          isDataRow_header, hth, htc, hcnt, ih1]
        rw [hr1, htot, hr2]
        omega
      · show (renderFiles env rest (renderRows env fp fIssues rc).2.1).2 = _
        rw [ih2, decide_eq_decide, hr2, htot]
        omega
      · rw [truncNoticeCount] at ih3
        simp [truncNoticeCount, List.countP_append, List.countP_cons,
          isTruncNotice_header, hth2, htc2, hcnt0, ih3]
      · intro tag htag
        have hblk := fileBlock_tag_counts fp fIssues tag htag
        have hout := ih4 tag htag
        rw [tagOpens, tagCloses] at hout
        have hmap : (renderRows env fp fIssues rc).1.map
              (fun p => countSub p (openTag tag)) =
            (renderRows env fp fIssues rc).1.map
              (fun p => countSub p (closeTag tag)) :=
          List.map_congr_left (by
            intro a ha
            obtain ⟨i, rfl⟩ := hr4 a ha
            exact rowPart_tag_balance env fp i hsha hown hrep hfcl tag htag)
        simp only [tagOpens, tagCloses, List.map_append, List.map_cons,
          List.map_nil, List.sum_append, List.sum_cons, List.sum_nil]
        rw [hmap]
        omega

theorem c2_parts_shape (env : LintEnv)
    (files : List (String × List LintIssue)) (url : String)
    (hfne : files ≠ [])
    (htr : (renderFiles env files 0).2 = true) :
    build_details_html_parts env files url =
      ["<details>", "<summary>📖 Details (Click me)</summary>", ""] ++
      ((renderFiles env files 0).1 ++
        ([noticePart url] ++ ["", "</details>", ""])) := by
  have hf : files.isEmpty = false := by
    cases files
    · exact absurd rfl hfne
    · rfl
  simp only [build_details_html_parts]
  rw [hf, htr]
  simp

/-- C2 (amended): for a parsed lint result with more than 500 issues
across all files — every file carrying at least one issue, as
`parse_tflint_output` guarantees — `build_details_html` emits exactly
500 data rows and exactly one truncation notice, and every opened HTML
block tag is closed, provided the commit-link components and the file
paths interpolated into the HTML contain no `'<'` (cf. the C8 escaping
bug); the rendered string is the `"\n"`-join of the emitted parts.
The original claim's "stops emitting further files once the cap is
hit" is refuted separately. -/
theorem c2_truncation_cap (env : LintEnv)
    (files : List (String × List LintIssue)) (url : String)
    (hne : ∀ p ∈ files, p.2 ≠ [])
    (hcl : ∀ p ∈ files, noLt p.1)
    (hsha : noLt env.ghSha) (hown : noLt env.ownerForUrl)
    (hrep : noLt env.repoName) (hurl : noLt url)
    (htot : totalIssues files > 500) :
    dataRowCount (build_details_html_parts env files url) = 500 ∧
    truncNoticeCount (build_details_html_parts env files url) = 1 ∧
    (∀ tag ∈ blockTags,
      tagOpens (build_details_html_parts env files url) tag =
        tagCloses (build_details_html_parts env files url) tag) ∧
    build_details_html env files url =
      String.intercalate "\n" (build_details_html_parts env files url) := by
  have hmax : maxRows = 500 := rfl
  have hfne : files ≠ [] := by
    intro h
    rw [h] at htot
    simp [totalIssues] at htot
  obtain ⟨h1, h2, h3, h4⟩ := renderFiles_spec env hsha hown hrep files 0
    (Nat.zero_le _) hne hcl
  have htr : (renderFiles env files 0).2 = true := by
    rw [h2, decide_eq_true_eq]
    omega
  have hparts := c2_parts_shape env files url hfne htr
  rw [dataRowCount] at h1
  rw [truncNoticeCount] at h3
  have hd1 : isDataRow "<details>" = false := by decide
  have hd2 : isDataRow "<summary>📖 Details (Click me)</summary>" = false := by
    decide
  have hd3 : isDataRow "" = false := by decide
  have hd4 : isDataRow "</details>" = false := by decide
  have ht1 : isTruncNotice "<details>" = false := by decide
  have ht2 : isTruncNotice "<summary>📖 Details (Click me)</summary>" = false := by
    decide
  have ht3 : isTruncNotice "" = false := by decide
  have ht4 : isTruncNotice "</details>" = false := by decide
  refine ⟨?_, ?_, ?_, rfl⟩
  · rw [hparts]
    simp [dataRowCount, List.countP_append, List.countP_cons, hd1, hd2, hd3,
      hd4, isDataRow_notice, h1]
    omega
  · rw [hparts]
    simp [truncNoticeCount, List.countP_append, List.countP_cons, ht1, ht2,
      ht3, ht4, isTruncNotice_noticePart, h3]
  · intro tag htag
    obtain ⟨hn1, hn2⟩ := noticePart_tag_counts url hurl tag htag
    have hrq := h4 tag htag
    rw [tagOpens, tagCloses] at hrq
    rw [hparts]
    fin_cases htag

    · simp only [tagOpens, tagCloses, List.map_append, List.map_cons,
        List.map_nil, List.sum_append, List.sum_cons, List.sum_nil]
      have e1 : countSub "<details>" (openTag "details") = 1 := by decide
      have e2 : countSub "<summary>📖 Details (Click me)</summary>"
          (openTag "details") = 0 := by decide
      have e3 : countSub "" (openTag "details") = 0 := by decide
      have e4 : countSub "</details>" (openTag "details") = 0 := by decide
      have f1 : countSub "<details>" (closeTag "details") = 0 := by decide
      have f2 : countSub "<summary>📖 Details (Click me)</summary>"
          (closeTag "details") = 0 := by decide
      have f3 : countSub "" (closeTag "details") = 0 := by decide
      have f4 : countSub "</details>" (closeTag "details") = 1 := by decide
      omega

    · simp only [tagOpens, tagCloses, List.map_append, List.map_cons,
        List.map_nil, List.sum_append, List.sum_cons, List.sum_nil]
      have e1 : countSub "<details>" (openTag "table") = 0 := by decide
      have e2 : countSub "<summary>📖 Details (Click me)</summary>"
          (openTag "table") = 0 := by decide
      have e3 : countSub "" (openTag "table") = 0 := by decide
      have e4 : countSub "</details>" (openTag "table") = 0 := by decide
      have f1 : countSub "<details>" (closeTag "table") = 0 := by decide
      have f2 : countSub "<summary>📖 Details (Click me)</summary>"
          (closeTag "table") = 0 := by decide
      have f3 : countSub "" (closeTag "table") = 0 := by decide
      have f4 : countSub "</details>" (closeTag "table") = 0 := by decide
      omega

    · simp only [tagOpens, tagCloses, List.map_append, List.map_cons,
        List.map_nil, List.sum_append, List.sum_cons, List.sum_nil]
      have e1 : countSub "<details>" (openTag "thead") = 0 := by decide
      have e2 : countSub "<summary>📖 Details (Click me)</summary>"
          (openTag "thead") = 0 := by decide
      have e3 : countSub "" (openTag "thead") = 0 := by decide
      have e4 : countSub "</details>" (openTag "thead") = 0 := by decide
      have f1 : countSub "<details>" (closeTag "thead") = 0 := by decide
      have f2 : countSub "<summary>📖 Details (Click me)</summary>"
          (closeTag "thead") = 0 := by decide
      have f3 : countSub "" (closeTag "thead") = 0 := by decide
      have f4 : countSub "</details>" (closeTag "thead") = 0 := by decide
      omega

    · simp only [tagOpens, tagCloses, List.map_append, List.map_cons,
        List.map_nil, List.sum_append, List.sum_cons, List.sum_nil]
      have e1 : countSub "<details>" (openTag "tbody") = 0 := by decide
      have e2 : countSub "<summary>📖 Details (Click me)</summary>"
          (openTag "tbody") = 0 := by decide
      have e3 : countSub "" (openTag "tbody") = 0 := by decide
      have e4 : countSub "</details>" (openTag "tbody") = 0 := by decide
      have f1 : countSub "<details>" (closeTag "tbody") = 0 := by decide
      have f2 : countSub "<summary>📖 Details (Click me)</summary>"
          (closeTag "tbody") = 0 := by decide
      have f3 : countSub "" (closeTag "tbody") = 0 := by decide
      have f4 : countSub "</details>" (closeTag "tbody") = 0 := by decide
      omega

    · simp only [tagOpens, tagCloses, List.map_append, List.map_cons,
        List.map_nil, List.sum_append, List.sum_cons, List.sum_nil]
      have e1 : countSub "<details>" (openTag "tr") = 0 := by decide
      have e2 : countSub "<summary>📖 Details (Click me)</summary>"
          (openTag "tr") = 0 := by decide
      have e3 : countSub "" (openTag "tr") = 0 := by decide
      have e4 : countSub "</details>" (openTag "tr") = 0 := by decide
      have f1 : countSub "<details>" (closeTag "tr") = 0 := by decide
      have f2 : countSub "<summary>📖 Details (Click me)</summary>"
          (closeTag "tr") = 0 := by decide
      have f3 : countSub "" (closeTag "tr") = 0 := by decide
      have f4 : countSub "</details>" (closeTag "tr") = 0 := by decide
      omega

set_option maxRecDepth 400000 in
/-- Witness for the amended C2 theorem at a concrete over-cap input. -/
theorem c2_truncation_cap_witness :
    totalIssues exFilesOverCap > 500 ∧
    dataRowCount (build_details_html_parts exLintEnv exFilesOverCap "u") =
      500 ∧
    truncNoticeCount (build_details_html_parts exLintEnv exFilesOverCap "u") =
      1 := by
  have h := c2_truncation_cap exLintEnv exFilesOverCap "u" (by decide)
    (by simp only [noLt]; decide) (by simp only [noLt]; decide)
    (by simp only [noLt]; decide) (by simp only [noLt]; decide)
    (by simp only [noLt]; decide) (by decide)
  exact ⟨by decide, h.1, h.2.1⟩

set_option maxRecDepth 400000 in
/-- C2 counterexample to the claim's "stops emitting further files once
the 500-row cap is hit": with 500 issues in `a.tf` and one more in
`b.tf` the cap is reached exactly at the file boundary, yet the `b.tf`
file-block header (followed by an empty table) is still emitted. -/
theorem c2_file_block_after_cap :
    totalIssues exFilesOverCap = 501 ∧
    dataRowCount (build_details_html_parts exLintEnv exFilesOverCap "u") =
      500 ∧
    fileHeaderPart "b.tf" [exIssue] ∈
      build_details_html_parts exLintEnv exFilesOverCap "u" := by
  refine ⟨by decide, ?_, by decide⟩
  have h := c2_truncation_cap exLintEnv exFilesOverCap "u" (by decide)
    (by simp only [noLt]; decide) (by simp only [noLt]; decide)
    (by simp only [noLt]; decide) (by simp only [noLt]; decide)
    (by simp only [noLt]; decide) (by decide)
  exact h.1
